import Mathlib

/-!
Verification of the chess-mastery platform backend.

The JavaScript sources (chess engine, games controller, matchmaking
controller, Elo updater) are shallowly embedded below.  JS strings are
modelled as `List Char`; a JS value that may be `undefined` is modelled
with `Option`; JS `NaN`-able numbers are `Option Int` (with `none` for
`NaN`); code paths on which the JS program would throw a `TypeError`
(iterating or calling a method on `undefined`) are modelled with
`Except` where the claims exercise them, and with benign defaults on
paths no claim reaches (each such spot is noted).  Database access in
the controllers is modelled sequentially: a query re-reading a row
returns the same row.
-/

namespace Chess

abbrev JsStr := List Char

def wStr : JsStr := ['w']
def bStr : JsStr := ['b']

def FILES : List Char := ['a', 'b', 'c', 'd', 'e', 'f', 'g', 'h']
def RANKS : List Char := ['1', '2', '3', '4', '5', '6', '7', '8']

structure Pt where
  x : Int
  y : Int
deriving DecidableEq, Repr

/-- `FILES.indexOf(sq[0])` style lookup: `-1` when absent or the
character access was out of range (`undefined`). -/
def jsIndexOf (l : List Char) (c : Option Char) : Int :=
  match c with
  | none => -1
  | some ch =>
    match l.findIdx? (fun a => a == ch) with
    | none => -1
    | some i => (i : Int)

def sqToIdx (sq : JsStr) : Pt :=
  { x := jsIndexOf FILES (sq.get? 0), y := jsIndexOf RANKS (sq.get? 1) }

/-- `FILES[i]` interpolated into a template string; an out-of-range JS
index yields `undefined`, which interpolates as the text `undefined`. -/
def jsElemStr (l : List Char) (i : Int) : JsStr :=
  if 0 ≤ i then
    match l.get? i.toNat with
    | some c => [c]
    | none => ("undefined".toList)
  else ("undefined".toList)

def idxToSq (x y : Int) : JsStr :=
  jsElemStr FILES x ++ jsElemStr RANKS y

/-- One generated move; absent JS flags are `false`/`none`. -/
structure Move where
  fromSq : Pt
  toSq : Pt
  capture : Bool
  enPassant : Bool
  pawnDouble : Bool
  castle : Option Char
  promotion : Option Char
deriving DecidableEq, Repr

/-- The engine's position record.  String fields destructured from a
FEN split may be JS `undefined` (`none`); `halfmove`/`fullmove` are
`Number(...)` results, `none` standing for `NaN`. -/
structure St where
  board : List (List (Option Char))
  activeColor : Option JsStr
  castling : Option JsStr
  enPassant : Option JsStr
  halfmove : Option Int
  fullmove : Option Int
deriving DecidableEq, Repr

def boardGet (b : List (List (Option Char))) (y x : Int) : Option Char :=
  if 0 ≤ y ∧ 0 ≤ x then ((b.getD y.toNat []).getD x.toNat none) else none

def boardSet (b : List (List (Option Char))) (y x : Int) (v : Option Char) :
    List (List (Option Char)) :=
  if 0 ≤ y ∧ 0 ≤ x then b.set y.toNat ((b.getD y.toNat []).set x.toNat v) else b

/-- JS character-level split, matching `str.split(sep)` for a
single-character separator (`''.split(s) == ['']`).  The result is
always non-empty, so prepending to its head is total. -/
def splitOnChar (sep : Char) : List Char → List (List Char)
  | [] => [[]]
  | c :: rest =>
    let r := splitOnChar sep rest
    if c = sep then [] :: r else (c :: r.headD []) :: r.tail

/-- JS `Array.prototype.join` with a one-character separator. -/
def joinWith (sep : Char) : List (List Char) → List Char
  | [] => []
  | [x] => x
  | x :: y :: xs => x ++ sep :: joinWith sep (y :: xs)

/-- Big-endian decimal digits of `n` (empty for `0`); the fuel is an
upper bound on the digit count, `n` itself always suffices. -/
def jsNatStrAux : Nat → Nat → List Char
  | 0, _ => []
  | fuel + 1, n =>
    if n = 0 then [] else jsNatStrAux fuel (n / 10) ++ [Nat.digitChar (n % 10)]

/-- `String(n)` for a natural number. -/
def jsNatStr (n : Nat) : List Char :=
  if n = 0 then ['0'] else jsNatStrAux n n

/-- Template interpolation of a JS number (`none` = `NaN`). -/
def jsNumStr : Option Int → List Char
  | none => ("NaN".toList)
  | some i => if i < 0 then '-' :: jsNatStr (-i).toNat else jsNatStr i.toNat

/-- `Number(s)` restricted to the digit strings the engine produces and
the malformed fields the claims exercise: `Number(undefined) = NaN`,
`Number('') = 0`, a digit string parses, anything else is `NaN`. -/
def jsNumber : Option JsStr → Option Int
  | none => none
  | some [] => some 0
  | some cs =>
    if cs.all Char.isDigit then
      some (((cs.foldl (fun a c => a * 10 + (c.toNat - 48)) 0 : Nat)) : Int)
    else none

/-- `x || dflt` on a JS string value (falsy: `undefined` and `''`). -/
def jsStrOr (v : Option JsStr) (dflt : JsStr) : JsStr :=
  match v with
  | none => dflt
  | some s => if s = [] then dflt else s

/-- Template interpolation of a JS string value. -/
def jsStrInterp : Option JsStr → JsStr
  | none => ("undefined".toList)
  | some s => s

inductive JsError where
  | typeError
deriving DecidableEq, Repr

/-- Cell-by-cell decoding of one FEN rank into a preallocated
`Array(8).fill(null)` row; a digit advances the file pointer, any other
character is placed verbatim.  (A row describing more than eight
squares would grow the JS array; no claim reaches that, and
`List.set` ignores the out-of-range write.) -/
def decodeRowGo : List (Option Char) → Nat → List Char → List (Option Char)
  | row, _, [] => row
  | row, file, ch :: rest =>
    if ch.isDigit then decodeRowGo row (file + (ch.toNat - 48)) rest
    else decodeRowGo (row.set file (some ch)) (file + 1) rest

def decodeRow (s : List Char) : List (Option Char) :=
  decodeRowGo (List.replicate 8 none) 0 s

/-- `parseFen`.  The source destructures the six space-separated fields
(missing ones become `undefined`), performs no validation, and throws a
`TypeError` iff fewer than eight `/`-separated ranks are present (the
`for..of` over `rows[r] === undefined`). -/
def parseFen (fen : JsStr) : Except JsError St :=
  let fields := splitOnChar ' ' fen
  let placement := fields.getD 0 []
  let rows := splitOnChar '/' placement
  if rows.length < 8 then .error .typeError
  else
    .ok
      { board := (List.range 8).map (fun y => decodeRow (rows.getD (7 - y) [])),
        activeColor := fields.get? 1,
        castling := if fields.get? 2 = some ['-'] then some [] else fields.get? 2,
        enPassant := fields.get? 3,
        halfmove := jsNumber (fields.get? 4),
        fullmove := jsNumber (fields.get? 5) }

/-- Run-length encoding of one board rank, mirroring the `empty`
counter loop of `toFen`. -/
def encodeRowGo : List (Option Char) → Nat → List Char
  | [], empty => if empty ≠ 0 then jsNatStr empty else []
  | none :: rest, empty => encodeRowGo rest (empty + 1)
  | some p :: rest, empty =>
    (if empty ≠ 0 then jsNatStr empty else []) ++ p :: encodeRowGo rest 0

def encodeRow (row : List (Option Char)) : List Char := encodeRowGo row 0

def toFen (s : St) : JsStr :=
  let rows := (List.range 8).map (fun k => encodeRow (s.board.getD (7 - k) []))
  joinWith '/' rows
    ++ ' ' :: jsStrInterp s.activeColor
    ++ ' ' :: jsStrOr s.castling ['-']
    ++ ' ' :: jsStrOr s.enPassant ['-']
    ++ ' ' :: jsNumStr s.halfmove
    ++ ' ' :: jsNumStr s.fullmove

def isUpperJs (c : Char) : Bool := c == c.toUpper

/-- Piece colour; JS returns `null` / `'w'` / `'b'`.  (JS `null` and
`undefined` are distinct, but every comparison the engine performs has
a definite string on at least one side, so one `none` is faithful.) -/
def pieceColor : Option Char → Option JsStr
  | none => none
  | some p => if isUpperJs p then some wStr else some bStr

def findKing (board : List (List (Option Char))) (color : Option JsStr) : Option Pt :=
  let target := if color = some wStr then 'K' else 'k'
  (List.range 8).findSome? (fun (y : Nat) =>
    (List.range 8).findSome? (fun (x : Nat) =>
      if boardGet board (y : Int) (x : Int) = some target then
        some { x := (x : Int), y := (y : Int) }
      else none))

def onBoard (x y : Int) : Bool :=
  decide (0 ≤ x ∧ x < 8 ∧ 0 ≤ y ∧ y < 8)

/-- First piece met walking from `(x, y)` in direction `(dx, dy)`;
fuel `8` exceeds the longest possible on-board ray. -/
def rayFirst (board : List (List (Option Char))) (dx dy : Int) :
    Int → Int → Nat → Option Char
  | _, _, 0 => none
  | x, y, fuel + 1 =>
    if onBoard x y then
      match boardGet board y x with
      | some p => some p
      | none => rayFirst board dx dy (x + dx) (y + dy) fuel
    else none

def knightJumps : List (Int × Int) :=
  [(1, 2), (2, 1), (-1, 2), (-2, 1), (1, -2), (2, -1), (-1, -2), (-2, -1)]

def kingSteps : List (Int × Int) :=
  [(-1, -1), (-1, 0), (-1, 1), (0, -1), (0, 1), (1, -1), (1, 0), (1, 1)]

def diagDirs : List (Int × Int) := [(1, 1), (1, -1), (-1, 1), (-1, -1)]

def orthoDirs : List (Int × Int) := [(1, 0), (-1, 0), (0, 1), (0, -1)]

def isSquareAttacked (s : St) (sq : Pt) (byColor : JsStr) : Bool :=
  let board := s.board
  let x := sq.x
  let y := sq.y
  let pawn := if byColor = wStr then 'P' else 'p'
  let pawnDir : Int := if byColor = wStr then 1 else -1
  let pawnHit := ([-1, 1] : List Int).any (fun dx =>
    let px := x - dx
    let py := y - pawnDir
    onBoard px py && boardGet board py px == some pawn)
  let knight := if byColor = wStr then 'N' else 'n'
  let knightHit := knightJumps.any (fun d =>
    let nx := x + d.1
    let ny := y + d.2
    onBoard nx ny && boardGet board ny nx == some knight)
  let king := if byColor = wStr then 'K' else 'k'
  let kingHit := kingSteps.any (fun d =>
    let kx := x + d.1
    let ky := y + d.2
    onBoard kx ky && boardGet board ky kx == some king)
  let bishop := if byColor = wStr then 'B' else 'b'
  let queen := if byColor = wStr then 'Q' else 'q'
  let rook := if byColor = wStr then 'R' else 'r'
  let diagHit := diagDirs.any (fun d =>
    match rayFirst board d.1 d.2 (x + d.1) (y + d.2) 8 with
    | some p => pieceColor (some p) == some byColor && (p == bishop || p == queen)
    | none => false)
  let orthoHit := orthoDirs.any (fun d =>
    match rayFirst board d.1 d.2 (x + d.1) (y + d.2) 8 with
    | some p => pieceColor (some p) == some byColor && (p == rook || p == queen)
    | none => false)
  pawnHit || knightHit || kingHit || diagHit || orthoHit

def inCheck (s : St) (color : Option JsStr) : Bool :=
  match findKing s.board color with
  | none => false
  | some king =>
    let attacker := if color = some wStr then bStr else wStr
    isSquareAttacked s king attacker

/-- The `addMove` closure: reject off-board targets and own-piece
destinations, otherwise record the move, `capture` defaulting to
occupancy of the destination unless a flag overrides it. -/
def addMoveList (board : List (List (Option Char))) (color : Option JsStr)
    (fromP : Pt) (toX toY : Int) (flagCapture : Option Bool)
    (flagEp : Bool) (flagDouble : Bool) : List Move :=
  if !onBoard toX toY then []
  else
    let dest := boardGet board toY toX
    if dest.isSome && (pieceColor dest == color) then []
    else
      [{ fromSq := fromP, toSq := { x := toX, y := toY },
         capture := flagCapture.getD dest.isSome,
         enPassant := flagEp, pawnDouble := flagDouble,
         castle := none, promotion := none }]

/-- Target of the en-passant comparison:
`enPassant && enPassant !== '-' ? sqToIdx(enPassant) : null`. -/
def epSq (s : St) : Option Pt :=
  match s.enPassant with
  | none => none
  | some cs => if cs = [] then none else if cs = ['-'] then none else some (sqToIdx cs)

/-- One ray of the `slide` closure (empty squares keep extending, the
first occupied square ends the ray, included iff enemy-owned). -/
def slideGo (board : List (List (Option Char))) (color : Option JsStr)
    (targetColor : JsStr) (fromP : Pt) (dx dy : Int) :
    Int → Int → Nat → List Move
  | _, _, 0 => []
  | x, y, fuel + 1 =>
    if onBoard x y then
      match boardGet board y x with
      | none =>
        addMoveList board color fromP x y none false false
          ++ slideGo board color targetColor fromP dx dy (x + dx) (y + dy) fuel
      | some dest =>
        if pieceColor (some dest) == some targetColor then
          addMoveList board color fromP x y (some true) false false
        else []
    else []

def slide (board : List (List (Option Char))) (color : Option JsStr)
    (targetColor : JsStr) (fromP : Pt) (dirs : List (Int × Int)) : List Move :=
  dirs.flatMap (fun d =>
    slideGo board color targetColor fromP d.1 d.2 (fromP.x + d.1) (fromP.y + d.2) 8)

def castlingHas (s : St) (c : Char) : Bool :=
  match s.castling with
  | some cs => cs.contains c
  | none => false

def generatePieceMoves (s : St) (fromP : Pt) : List Move :=
  let board := s.board
  match boardGet board fromP.y fromP.x with
  | none => []
  | some piece =>
    let color := pieceColor (some piece)
    if color ≠ s.activeColor then []
    else
      let targetColor := if color = some wStr then bStr else wStr
      let p := piece.toUpper
      if p = 'P' then
        let dir : Int := if color = some wStr then 1 else -1
        let startRank : Int := if color = some wStr then 1 else 6
        let forward :=
          if onBoard fromP.x (fromP.y + dir) &&
              (boardGet board (fromP.y + dir) fromP.x).isNone then
            addMoveList board color fromP fromP.x (fromP.y + dir) none false false
              ++ (if fromP.y = startRank &&
                    (boardGet board (fromP.y + 2 * dir) fromP.x).isNone then
                    addMoveList board color fromP fromP.x (fromP.y + 2 * dir)
                      none false true
                  else [])
          else []
        let caps := ([-1, 1] : List Int).flatMap (fun dx =>
          let tx := fromP.x + dx
          let ty := fromP.y + dir
          if !onBoard tx ty then []
          else
            let dest := boardGet board ty tx
            (if dest.isSome && pieceColor dest == some targetColor then
               addMoveList board color fromP tx ty (some true) false false
             else [])
              ++ (match epSq s with
                  | some e =>
                    if e.x = tx ∧ e.y = ty then
                      addMoveList board color fromP tx ty (some true) true false
                    else []
                  | none => []))
        forward ++ caps
      else if p = 'N' then
        knightJumps.flatMap (fun d =>
          addMoveList board color fromP (fromP.x + d.1) (fromP.y + d.2)
            none false false)
      else
        (if p = 'B' then slide board color targetColor fromP diagDirs else [])
          ++ (if p = 'R' then slide board color targetColor fromP orthoDirs else [])
          ++ (if p = 'Q' then
                slide board color targetColor fromP (diagDirs ++ orthoDirs)
              else [])
          ++ (if p = 'K' then
                kingSteps.flatMap (fun d =>
                  addMoveList board color fromP (fromP.x + d.1) (fromP.y + d.2)
                    none false false)
                  ++ (if !inCheck s color then
                        let rank : Int := if color = some wStr then 0 else 7
                        (if (if color = some wStr then castlingHas s 'K'
                             else castlingHas s 'k') &&
                            (boardGet board rank 5).isNone &&
                            (boardGet board rank 6).isNone &&
                            !isSquareAttacked s { x := 5, y := rank } targetColor &&
                            !isSquareAttacked s { x := 6, y := rank } targetColor then
                           [{ fromSq := fromP, toSq := { x := 6, y := rank },
                              capture := false, enPassant := false,
                              pawnDouble := false, castle := some 'K',
                              promotion := none }]
                         else [])
                          ++ (if (if color = some wStr then castlingHas s 'Q'
                                  else castlingHas s 'q') &&
                                 (boardGet board rank 1).isNone &&
                                 (boardGet board rank 2).isNone &&
                                 (boardGet board rank 3).isNone &&
                                 !isSquareAttacked s { x := 3, y := rank } targetColor &&
                                 !isSquareAttacked s { x := 2, y := rank } targetColor then
                                [{ fromSq := fromP, toSq := { x := 2, y := rank },
                                   capture := false, enPassant := false,
                                   pawnDouble := false, castle := some 'Q',
                                   promotion := none }]
                              else [])
                      else [])
              else [])

/-- `str.replace(c, '')` with a plain (non-global) pattern: remove the
first occurrence only. -/
def removeFirstChar (c : Char) : List Char → List Char
  | [] => []
  | a :: rest => if a = c then rest else a :: removeFirstChar c rest

/-- `replace` on a possibly-`undefined` castling string.  (On `none`
the JS source would throw; no claim reaches that path.) -/
def jsReplaceFirst (v : Option JsStr) (c : Char) : Option JsStr :=
  v.map (removeFirstChar c)

def jsNumAdd (v : Option Int) (k : Int) : Option Int :=
  v.map (fun i => i + k)

def applyMove (s : St) (m : Move) : St :=
  let piece := boardGet s.board m.fromSq.y m.fromSq.x
  let b1 := boardSet s.board m.fromSq.y m.fromSq.x none
  let b2 :=
    if m.enPassant then
      let dir : Int := if s.activeColor = some wStr then -1 else 1
      boardSet b1 (m.toSq.y + dir) m.toSq.x none
    else b1
  let b3 :=
    if m.castle.isSome then
      let rank : Int := if s.activeColor = some wStr then 0 else 7
      if m.toSq.x = 6 then
        let rook := boardGet b2 rank 7
        boardSet (boardSet b2 rank 7 none) rank 5 rook
      else if m.toSq.x = 2 then
        let rook := boardGet b2 rank 0
        boardSet (boardSet b2 rank 0 none) rank 3 rook
      else b2
    else b2
  let placed : Option Char :=
    match m.promotion with
    | some pr => some (if s.activeColor = some wStr then pr else pr.toLower)
    | none => piece
  let b4 := boardSet b3 m.toSq.y m.toSq.x placed
  let moved := piece.map Char.toUpper
  let c1 : Option JsStr :=
    if moved = some 'K' then
      s.castling.map (fun cs =>
        cs.filter (fun c =>
          !(if s.activeColor = some wStr then c == 'K' || c == 'Q'
            else c == 'k' || c == 'q')))
    else s.castling
  let c2 :=
    if moved = some 'R' then
      let rank : Int := if s.activeColor = some wStr then 0 else 7
      let c2a :=
        if m.fromSq.y = rank ∧ m.fromSq.x = 0 then
          jsReplaceFirst c1 (if s.activeColor = some wStr then 'Q' else 'q')
        else c1
      if m.fromSq.y = rank ∧ m.fromSq.x = 7 then
        jsReplaceFirst c2a (if s.activeColor = some wStr then 'K' else 'k')
      else c2a
    else c1
  let c3 :=
    if m.capture then
      let d1 := if m.toSq.y = 0 ∧ m.toSq.x = 0 then jsReplaceFirst c2 'Q' else c2
      let d2 := if m.toSq.y = 0 ∧ m.toSq.x = 7 then jsReplaceFirst d1 'K' else d1
      let d3 := if m.toSq.y = 7 ∧ m.toSq.x = 0 then jsReplaceFirst d2 'q' else d2
      if m.toSq.y = 7 ∧ m.toSq.x = 7 then jsReplaceFirst d3 'k' else d3
    else c2
  let ep : Option JsStr :=
    if m.pawnDouble then
      let epY := m.fromSq.y + (if s.activeColor = some wStr then 1 else -1)
      some (idxToSq m.fromSq.x epY)
    else some ['-']
  let hm := if moved = some 'P' ∨ m.capture then some 0 else jsNumAdd s.halfmove 1
  let nextColor := if s.activeColor = some wStr then bStr else wStr
  let fm := if nextColor = wStr then jsNumAdd s.fullmove 1 else s.fullmove
  { board := b4, activeColor := some nextColor, castling := c3,
    enPassant := ep, halfmove := hm, fullmove := fm }

def allLegalMoves (s : St) : List Move :=
  ((List.range 8).flatMap (fun (y : Nat) =>
      (List.range 8).flatMap (fun (x : Nat) =>
        match boardGet s.board (y : Int) (x : Int) with
        | none => []
        | some p =>
          if pieceColor (some p) ≠ s.activeColor then []
          else generatePieceMoves s { x := (x : Int), y := (y : Int) }))).filter
    (fun m => !inCheck (applyMove s m) s.activeColor)

def isPromoLetter (c : Char) : Bool := c == 'Q' || c == 'R' || c == 'B' || c == 'N'

def isPieceLetter (c : Char) : Bool :=
  c == 'K' || c == 'Q' || c == 'R' || c == 'B' || c == 'N'

def stripCheckChars (s : JsStr) : JsStr := s.filter (fun c => !(c == '+' || c == '#'))

def jsTrim (s : JsStr) : JsStr :=
  ((s.dropWhile Char.isWhitespace).reverse.dropWhile Char.isWhitespace).reverse

/-- Scan for `/=([QRBN])/` over adjacent pairs, the first argument
being the previous character. -/
def findPromotionAux : Char → List Char → Option Char
  | _, [] => none
  | a, c :: rest =>
    if a = '=' ∧ isPromoLetter c then some c else findPromotionAux c rest

/-- First match of `/=([QRBN])/`. -/
def findPromotion : List Char → Option Char
  | [] => none
  | a :: rest => findPromotionAux a rest

/-- Left-to-right deletion of every `/=([QRBN])/` match; the first
argument is the pending previous character. -/
def removePromosAux : Char → List Char → List Char
  | a, [] => [a]
  | a, c :: rest =>
    if a = '=' ∧ isPromoLetter c then
      match rest with
      | [] => []
      | b :: rest2 => removePromosAux b rest2
    else a :: removePromosAux c rest

/-- `replace(/=([QRBN])/g, '')`: delete every match, scanning left to
right. -/
def removePromos : List Char → List Char
  | [] => []
  | a :: rest => removePromosAux a rest

/-- Strip a trailing `/([a-h][1-8])$/` match if present. -/
def dropDestSuffix (s : JsStr) : JsStr :=
  match s.reverse with
  | r :: f :: rest =>
    if FILES.contains f && RANKS.contains r then rest.reverse else s
  | _ => s

structure San where
  pieceLetter : Char
  toSq : Pt
  capture : Bool
  promotion : Option Char
  disFile : Option Char
  disRank : Option Char
  pawnFromFile : Option Char
deriving DecidableEq, Repr

inductive SanParse where
  | castle (side : Char)
  | move (p : San)
deriving DecidableEq, Repr

def parseSan (_state : St) (sanRaw : JsStr) : Option SanParse :=
  let san := jsTrim (stripCheckChars sanRaw)
  if san = ("O-O".toList) ∨ san = ("0-0".toList) then some (.castle 'K')
  else if san = ("O-O-O".toList) ∨ san = ("0-0-0".toList) then some (.castle 'Q')
  else
    let promotion := findPromotion san
    let cleaned := removePromos san
    let capture := cleaned.contains 'x'
    let pieceLetter :=
      match cleaned.head? with
      | some c => if isPieceLetter c then c else 'P'
      | none => 'P'
    match cleaned.reverse with
    | r :: f :: _ =>
      if FILES.contains f && RANKS.contains r then
        let toP : Pt :=
          { x := jsIndexOf FILES (some f), y := jsIndexOf RANKS (some r) }
        let afterPiece :=
          match cleaned.head? with
          | some c => if isPieceLetter c then cleaned.tail else cleaned
          | none => cleaned
        let between := dropDestSuffix (removeFirstChar 'x' afterPiece)
        let disFile := between.find? (fun c => FILES.contains c)
        let disRank := between.find? (fun c => RANKS.contains c)
        let pawnFromFile :=
          if pieceLetter = 'P' ∧ capture then cleaned.head? else none
        some (.move
          { pieceLetter := pieceLetter, toSq := toP, capture := capture,
            promotion := promotion, disFile := disFile, disRank := disRank,
            pawnFromFile := pawnFromFile })
      else none
    | _ => none

/-- The candidate-filtering pipeline of `validateAndApplySanMove`,
ending with the promotion-suffix attachment. -/
def sanCandidates (s : St) (parsed : SanParse) : List Move :=
  let legal := allLegalMoves s
  match parsed with
  | .castle side =>
    let rank : Int := if s.activeColor = some wStr then 0 else 7
    let toX : Int := if side = 'K' then 6 else 2
    legal.filter (fun m => m.castle.isSome && m.toSq.x == toX && m.toSq.y == rank)
  | .move p =>
    let desiredPiece :=
      if s.activeColor = some wStr then p.pieceLetter else p.pieceLetter.toLower
    let c1 := legal.filter (fun m =>
      boardGet s.board m.fromSq.y m.fromSq.x == some desiredPiece &&
      m.toSq.x == p.toSq.x && m.toSq.y == p.toSq.y &&
      m.capture == p.capture)
    let c2 :=
      match p.disFile with
      | none => c1
      | some f => c1.filter (fun m => jsElemStr FILES m.fromSq.x == [f])
    let c3 :=
      match p.disRank with
      | none => c2
      | some r => c2.filter (fun m => jsElemStr RANKS m.fromSq.y == [r])
    let c4 :=
      match p.pawnFromFile with
      | none => c3
      | some pf => c3.filter (fun m => jsElemStr FILES m.fromSq.x == [pf])
    match p.promotion with
    | none => c4
    | some pr => c4.map (fun m => { m with promotion := some pr })

inductive SanResult where
  | failure (error : JsStr)
  | success (fenAfter : JsStr) (check checkmate stalemate : Bool)
deriving DecidableEq, Repr

/-- The tail of `validateAndApplySanMove`: the exactly-one-candidate
check (`Illegal move` on zero, `Ambiguous move` on two or more),
application of the sole candidate, and the terminal-status
recomputation. -/
def applyResolved (state : St) (candidates : List Move) : SanResult :=
  match candidates with
  | [m] =>
    let next := applyMove state m
    let oppInCheck := inCheck next next.activeColor
    let oppLegal := allLegalMoves next
    .success (toFen next) oppInCheck (oppInCheck && oppLegal.isEmpty)
      (!oppInCheck && oppLegal.isEmpty)
  | [] => .failure ("Illegal move".toList)
  | _ => .failure ("Ambiguous move".toList)

def vaasCore (state : St) (san : JsStr) : SanResult :=
  match parseSan state san with
  | none => .failure ("Invalid SAN format".toList)
  | some parsed => applyResolved state (sanCandidates state parsed)

def validateAndApplySanMove (fen san : JsStr) : Except JsError SanResult :=
  (parseFen fen).map (fun st => vaasCore st san)

/-! ### Games controller (`submitMove`), matchmaking, Elo -/

def activeStr : JsStr := "active".toList
def finishedStr : JsStr := "finished".toList

/-- One game row; the database columns the controller touches. -/
structure Game where
  whiteUserId : Nat
  blackUserId : Nat
  status : JsStr
  moves : List JsStr
  currentFen : JsStr
  winnerUserId : Option Nat
deriving DecidableEq, Repr

inductive SubmitOutcome where
  | gameNotActive
  | notAPlayer
  | turnViolation
  | moveRejected (msg : JsStr)
  | engineError
  | accepted
deriving DecidableEq, Repr

/-- `GamesController.submitMove`, modelled sequentially (the
`FOR UPDATE` re-read returns the same row).  The pair is the HTTP-level
outcome and the stored game row after the call. -/
def submitMove (g : Game) (userId : Nat) (san : JsStr) : SubmitOutcome × Game :=
  if g.status ≠ activeStr then (.gameNotActive, g)
  else if g.whiteUserId ≠ userId ∧ g.blackUserId ≠ userId then (.notAPlayer, g)
  else
    let turn := (splitOnChar ' ' g.currentFen).get? 1
    let expectedUserId := if turn = some wStr then g.whiteUserId else g.blackUserId
    if expectedUserId ≠ userId then (.turnViolation, g)
    else
      match validateAndApplySanMove g.currentFen san with
      | .error _ => (.engineError, g)
      | .ok (.failure msg) => (.moveRejected msg, g)
      | .ok (.success fenAfter _check checkmate stalemate) =>
        let status := if checkmate || stalemate then finishedStr else activeStr
        let winner := if checkmate then some userId else none
        (.accepted,
          { g with
            moves := g.moves ++ [san], currentFen := fenAfter,
            status := status, winnerUserId := winner })

def submitSeq (g : Game) : List (Nat × JsStr) → List SubmitOutcome × Game
  | [] => ([], g)
  | (u, san) :: rest =>
    let r1 := submitMove g u san
    let r2 := submitSeq r1.2 rest
    (r1.1 :: r2.1, r2.2)

/-- One matchmaking-queue row (`user_id`, `rating_snapshot`); the queue
list is ordered by `queued_at` ascending, as the selecting query does. -/
structure MqEntry where
  userId : Nat
  ratingSnapshot : Int
deriving DecidableEq, Repr

structure Pairing where
  whiteUserId : Nat
  blackUserId : Nat
deriving DecidableEq, Repr

/-- `MatchmakingController.tryMatch`, modelled sequentially: the locked
re-read returns the same two earliest entries in the same order. -/
def tryMatch (queue : List MqEntry) : Option Pairing :=
  match queue with
  | a :: b :: _ =>
    if a.userId = b.userId then none
    else
      let whiteUserId := if a.ratingSnapshot ≥ b.ratingSnapshot then a.userId else b.userId
      let blackUserId := if whiteUserId = a.userId then b.userId else a.userId
      some { whiteUserId := whiteUserId, blackUserId := blackUserId }
  | _ => none

/-- `computeEloDelta` with its fixed default `k = 32`.  JS double
arithmetic is modelled over the reals; `Math.round` is
`⌊x + 1/2⌋` (JS rounds halves toward positive infinity). -/
noncomputable def computeEloDelta (ratingA ratingB : ℤ) (scoreA : ℝ) : ℤ :=
  ⌊32 * (scoreA -
      1 / (1 + (10 : ℝ) ^ (((ratingB : ℝ) - (ratingA : ℝ)) / 400))) + 1 / 2⌋

/-! ### Start position, well-formedness, reachability -/

/-- `START_FEN` from the matchmaking controller. -/
def startFen : JsStr :=
  "rnbqkbnr/pppppppp/8/8/8/8/PPPPPPPP/RNBQKBNR w KQkq - 0 1".toList

def startBoard : List (List (Option Char)) :=
  [[some 'R', some 'N', some 'B', some 'Q', some 'K', some 'B', some 'N', some 'R'],
   [some 'P', some 'P', some 'P', some 'P', some 'P', some 'P', some 'P', some 'P'],
   [none, none, none, none, none, none, none, none],
   [none, none, none, none, none, none, none, none],
   [none, none, none, none, none, none, none, none],
   [none, none, none, none, none, none, none, none],
   [some 'p', some 'p', some 'p', some 'p', some 'p', some 'p', some 'p', some 'p'],
   [some 'r', some 'n', some 'b', some 'q', some 'k', some 'b', some 'n', some 'r']]

/-- The canonical starting Position, as `parseFen startFen` yields it. -/
def startSt : St :=
  { board := startBoard, activeColor := some wStr,
    castling := some ("KQkq".toList), enPassant := some ['-'],
    halfmove := some 0, fullmove := some 1 }

/-- A board character that the FEN row codec round-trips: not a
digit (the codec's run-length marks), not the rank separator, not the
field separator. -/
def plainPiece (p : Char) : Bool := !p.isDigit && p != '/' && p != ' '

def wfRow (row : List (Option Char)) : Bool :=
  row.length == 8 &&
    row.all (fun c =>
      match c with
      | none => true
      | some p => plainPiece p)

def wfBoard (b : List (List (Option Char))) : Bool :=
  b.length == 8 && b.all wfRow

def wfCastling : Option JsStr → Bool
  | some cs => !cs.contains '-' && !cs.contains ' '
  | none => false

def wfEpStr : Option JsStr → Bool
  | some e => !(e.isEmpty) && !e.contains ' '
  | none => false

def wfNum : Option Int → Bool
  | some n => decide (0 ≤ n)
  | none => false

/-- The invariant every internally produced Position maintains and
that makes `toFen`/`parseFen` a bit-exact round trip: an 8×8 board of
codec-safe piece characters, a `w`/`b` side to move, a present
castling string without `-`/space, a present non-empty space-free
en-passant field, and present non-negative clock numbers. -/
def wfSt (s : St) : Bool :=
  wfBoard s.board &&
    (s.activeColor == some wStr || s.activeColor == some bStr) &&
    wfCastling s.castling &&
    wfEpStr s.enPassant &&
    wfNum s.halfmove &&
    wfNum s.fullmove

/-- Positions reachable from the canonical start by legal play. -/
inductive Reachable : St → Prop where
  | start : Reachable startSt
  | step {s : St} {m : Move} :
      Reachable s → m ∈ allLegalMoves s → Reachable (applyMove s m)

/-! ### Concrete fixtures used by the individual properties -/

/-- A fresh game row as matchmaking creates it (white = user 1,
black = user 2). -/
def startGame : Game :=
  { whiteUserId := 1, blackUserId := 2, status := activeStr,
    moves := [], currentFen := startFen, winnerUserId := none }

/-- Minimal position: white Ka1 and Pe2, black Kh8, white to move. -/
def miniSt : St :=
  { board :=
      [[some 'K', none, none, none, none, none, none, none],
       [none, none, none, none, some 'P', none, none, none],
       [none, none, none, none, none, none, none, none],
       [none, none, none, none, none, none, none, none],
       [none, none, none, none, none, none, none, none],
       [none, none, none, none, none, none, none, none],
       [none, none, none, none, none, none, none, none],
       [none, none, none, none, none, none, none, some 'k']],
    activeColor := some wStr, castling := some [], enPassant := some ['-'],
    halfmove := some 0, fullmove := some 1 }

/-- The single pawn push e2–e3 in `miniSt`. -/
def miniMove : Move :=
  { fromSq := { x := 4, y := 1 }, toSq := { x := 4, y := 2 },
    capture := false, enPassant := false, pawnDouble := false,
    castle := none, promotion := none }

/-- Two white knights (g1 and e5) both able to reach f3. -/
def ambFen : JsStr := "7k/8/8/4N3/8/8/8/4K1N1 w - - 0 1".toList

/-- The parse of token `Nf3`. -/
def nf3Parsed : SanParse :=
  .move
    { pieceLetter := 'N', toSq := { x := 5, y := 2 }, capture := false,
      promotion := none, disFile := none, disRank := none, pawnFromFile := none }

/-- White Ke1 and Pe4, black Kh8: the promotion-suffix fixture. -/
def promoFen : JsStr := "7k/8/8/8/4P3/8/8/4K3 w - - 0 1".toList

/-- An 8×8 grid of rows (the shape every internally produced board
has, regardless of its piece content). -/
def boardShape (b : List (List (Option Char))) : Bool :=
  b.length == 8 && b.all (fun r => r.length == 8)

/-- The fool's-mate submission sequence: white is user 1, black user 2. -/
def fmMoves : List (Nat × JsStr) :=
  [(1, "f3".toList), (2, "e5".toList), (1, "g4".toList), (2, "Qh4".toList)]

/-! ## Theorems -/

/-- C1.  Legality closure: every move in the list returned by
`allLegalMoves` leaves the mover's own king unattacked after
`applyMove` — the legal-move list contains no move whose application
leaves the side that moved in check. -/
theorem legal_moves_never_leave_own_king_in_check (s : St) (m : Move)
    (hm : m ∈ allLegalMoves s) :
    inCheck (applyMove s m) s.activeColor = false := by
  unfold allLegalMoves at hm
  rw [List.mem_filter] at hm
  simpa using hm.2

/-- Witness for C1: the pawn push e2–e3 is in the legal-move list of
`miniSt` and leaves white out of check. -/
theorem legal_moves_never_leave_own_king_in_check_witness :
    miniMove ∈ allLegalMoves miniSt ∧
      inCheck (applyMove miniSt miniMove) miniSt.activeColor = false :=
  ⟨by decide, legal_moves_never_leave_own_king_in_check miniSt miniMove (by decide)⟩

/-- C10.  A colour with no king on the board: `findKing` returns
`none` and `inCheck` reports `false`, so check detection is total on
king-less positions. -/
theorem missing_king_not_in_check (s : St) (color : Option JsStr)
    (h : ∀ (y : Nat), y < 8 → ∀ (x : Nat), x < 8 →
      boardGet s.board (y : Int) (x : Int) ≠
        some (if color = some wStr then 'K' else 'k')) :
    findKing s.board color = none ∧ inCheck s color = false := by
  have hf : findKing s.board color = none := by
    unfold findKing
    rw [List.findSome?_eq_none_iff]
    intro y hy
    rw [List.findSome?_eq_none_iff]
    intro x hx
    rw [List.mem_range] at hy hx
    simp [h y hy x hx]
  refine ⟨hf, ?_⟩
  unfold inCheck
  rw [hf]

/-- Witness for C10: a board holding only the two kings has no white
queen … no white king?  Here: a board with only black's king — white
has no king, is not in check. -/
theorem missing_king_not_in_check_witness :
    findKing
        ([[none, none, none, none, none, none, none, none],
          [none, none, none, none, none, none, none, none],
          [none, none, none, none, none, none, none, none],
          [none, none, none, none, none, none, none, none],
          [none, none, none, none, none, none, none, none],
          [none, none, none, none, none, none, none, none],
          [none, none, none, none, none, none, none, none],
          [none, none, none, none, none, none, none, some 'k']]) (some wStr) = none ∧
      inCheck
        { board :=
            [[none, none, none, none, none, none, none, none],
             [none, none, none, none, none, none, none, none],
             [none, none, none, none, none, none, none, none],
             [none, none, none, none, none, none, none, none],
             [none, none, none, none, none, none, none, none],
             [none, none, none, none, none, none, none, none],
             [none, none, none, none, none, none, none, none],
             [none, none, none, none, none, none, none, some 'k']],
          activeColor := some wStr, castling := some [], enPassant := some ['-'],
          halfmove := some 0, fullmove := some 1 } (some wStr) = false :=
  missing_king_not_in_check
    { board :=
        [[none, none, none, none, none, none, none, none],
         [none, none, none, none, none, none, none, none],
         [none, none, none, none, none, none, none, none],
         [none, none, none, none, none, none, none, none],
         [none, none, none, none, none, none, none, none],
         [none, none, none, none, none, none, none, none],
         [none, none, none, none, none, none, none, none],
         [none, none, none, none, none, none, none, some 'k']],
      activeColor := some wStr, castling := some [], enPassant := some ['-'],
      halfmove := some 0, fullmove := some 1 } (some wStr) (by decide)

/-- C8.  `tryMatch` colour assignment is deterministic: a successful
pairing of the two earliest queue entries gives white to the entry
with the strictly higher rating snapshot, first-read entry on ties,
and black to the other entry. -/
theorem tryMatch_higher_rating_white_tie_first (a b : MqEntry)
    (rest : List MqEntry) (p : Pairing)
    (h : tryMatch (a :: b :: rest) = some p) :
    (b.ratingSnapshot < a.ratingSnapshot →
      p.whiteUserId = a.userId ∧ p.blackUserId = b.userId) ∧
    (a.ratingSnapshot < b.ratingSnapshot →
      p.whiteUserId = b.userId ∧ p.blackUserId = a.userId) ∧
    (a.ratingSnapshot = b.ratingSnapshot →
      p.whiteUserId = a.userId ∧ p.blackUserId = b.userId) := by
  replace h :
      (if a.userId = b.userId then (none : Option Pairing)
       else
        some
          { whiteUserId :=
              if a.ratingSnapshot ≥ b.ratingSnapshot then a.userId else b.userId,
            blackUserId :=
              if (if a.ratingSnapshot ≥ b.ratingSnapshot then a.userId
                  else b.userId) = a.userId then b.userId
              else a.userId }) = some p := h
  by_cases hid : a.userId = b.userId
  · simp [hid] at h
  · rw [if_neg hid, Option.some.injEq] at h
    subst h
    by_cases hr : b.ratingSnapshot ≤ a.ratingSnapshot
    · refine ⟨fun _ => ?_, fun hlt => absurd hlt (by omega), fun _ => ?_⟩ <;>
        simp [ge_iff_le, hr]
    · refine ⟨fun hlt => absurd hlt (by omega), fun _ => ?_,
        fun heq => absurd heq (by omega)⟩
      have hr' : ¬ b.ratingSnapshot ≤ a.ratingSnapshot := hr
      have hba : ¬ b.userId = a.userId := fun hba => hid hba.symm
      simp [ge_iff_le, hr', hba]

/-- Witness for C8: user 1 (rating 1500) and user 2 (rating 1400)
pair with user 1 as white. -/
theorem tryMatch_higher_rating_white_tie_first_witness :
    tryMatch [{ userId := 1, ratingSnapshot := 1500 },
      { userId := 2, ratingSnapshot := 1400 }] =
        some { whiteUserId := 1, blackUserId := 2 } ∧
      Pairing.whiteUserId { whiteUserId := 1, blackUserId := 2 } = 1 ∧
      Pairing.blackUserId { whiteUserId := 1, blackUserId := 2 } = 2 :=
  ⟨by decide,
    (tryMatch_higher_rating_white_tie_first
        { userId := 1, ratingSnapshot := 1500 }
        { userId := 2, ratingSnapshot := 1400 } []
        { whiteUserId := 1, blackUserId := 2 } (by decide)).1 (by decide)⟩

/-- C4.  Turn enforcement: an active game, a submission by a
participant who is not the expected side to move — `submitMove`
answers the turn-violation rejection and returns the game row
unchanged (same Position, move history, status, winner). -/
theorem submitMove_turn_violation_leaves_game_unchanged (g : Game)
    (userId : Nat) (san : JsStr)
    (hactive : g.status = activeStr)
    (hplayer : userId = g.whiteUserId ∨ userId = g.blackUserId)
    (hturn :
      (if (splitOnChar ' ' g.currentFen).get? 1 = some wStr then g.whiteUserId
       else g.blackUserId) ≠ userId) :
    submitMove g userId san = (.turnViolation, g) := by
  unfold submitMove
  rw [if_neg (by simp [hactive])]
  rw [if_neg (by rcases hplayer with h | h <;> simp [h.symm])]
  simp only []
  rw [if_pos hturn]

/-- Witness for C4: black (user 2) submitting on white's turn in a
fresh game is rejected without a state change. -/
theorem submitMove_turn_violation_leaves_game_unchanged_witness :
    submitMove startGame 2 ("e5".toList) = (.turnViolation, startGame) :=
  submitMove_turn_violation_leaves_game_unchanged startGame 2 ("e5".toList)
    (by decide) (by decide) (by decide)

/-- C3.  Fool's mate end to end: from the canonical start, the tokens
f3, e5, g4, Qh4 are all accepted; the last engine result reports
`checkmate = true` (and `check = true`); the committed session is
`finished` with the submitting black participant (user 2) as winner. -/
theorem fools_mate_finishes_session_with_black_winner :
    submitSeq startGame fmMoves =
      (([.accepted, .accepted, .accepted, .accepted] : List SubmitOutcome),
        { whiteUserId := 1, blackUserId := 2, status := finishedStr,
          moves := ["f3".toList, "e5".toList, "g4".toList, "Qh4".toList],
          currentFen :=
            ("rnb1kbnr/pppp1ppp/8/4p3/6Pq/5P2/PPPPP2P/RNBQKBNR w KQkq - 1 3".toList),
          winnerUserId := some 2 }) ∧
      validateAndApplySanMove
          ("rnbqkbnr/pppp1ppp/8/4p3/6P1/5P2/PPPPP2P/RNBQKBNR b KQkq g3 0 2".toList)
          ("Qh4".toList) =
        .ok (.success
          ("rnb1kbnr/pppp1ppp/8/4p3/6Pq/5P2/PPPPP2P/RNBQKBNR w KQkq - 1 3".toList)
          true true false) :=
  ⟨by rfl, by rfl⟩

/-- Counterexample for C6: `parseFen` performs no validation — an
input with illegal piece letters is not answered with any
`InvalidFormat` value, it silently yields a Position with the illegal
letters placed on the board. -/
theorem parseFen_silently_accepts_illegal_letters :
    parseFen ("zz6/8/8/8/8/8/8/8 w - - 0 1".toList) =
      .ok
        { board :=
            [[none, none, none, none, none, none, none, none],
             [none, none, none, none, none, none, none, none],
             [none, none, none, none, none, none, none, none],
             [none, none, none, none, none, none, none, none],
             [none, none, none, none, none, none, none, none],
             [none, none, none, none, none, none, none, none],
             [none, none, none, none, none, none, none, none],
             [some 'z', some 'z', none, none, none, none, none, none]],
          activeColor := some ['w'], castling := some [],
          enPassant := some ['-'], halfmove := some 0, fullmove := some 1 } :=
  by rfl

/-- C6 (amended).  What `parseFen` actually does on the malformed
inputs the claim names: illegal piece letters are placed on the board
and a Position is silently returned; a wrong field count silently
returns a Position whose missing fields are `undefined`/`NaN`; fewer
than eight ranks throws a `TypeError`.  No `InvalidFormat` result
exists. -/
theorem parseFen_does_not_validate :
    parseFen ("zz6/8/8/8/8/8/8/8 w - - 0 1".toList) =
      .ok
        { board :=
            [[none, none, none, none, none, none, none, none],
             [none, none, none, none, none, none, none, none],
             [none, none, none, none, none, none, none, none],
             [none, none, none, none, none, none, none, none],
             [none, none, none, none, none, none, none, none],
             [none, none, none, none, none, none, none, none],
             [none, none, none, none, none, none, none, none],
             [some 'z', some 'z', none, none, none, none, none, none]],
          activeColor := some ['w'], castling := some [],
          enPassant := some ['-'], halfmove := some 0, fullmove := some 1 } ∧
      parseFen ("8/8/8/8/8/8/8/8 w".toList) =
        .ok
          { board :=
              [[none, none, none, none, none, none, none, none],
               [none, none, none, none, none, none, none, none],
               [none, none, none, none, none, none, none, none],
               [none, none, none, none, none, none, none, none],
               [none, none, none, none, none, none, none, none],
               [none, none, none, none, none, none, none, none],
               [none, none, none, none, none, none, none, none],
               [none, none, none, none, none, none, none, none]],
            activeColor := some ['w'], castling := none,
            enPassant := none, halfmove := none, fullmove := none } ∧
      parseFen ("8/8/8/8/8/8/8 w - - 0 1".toList) = .error .typeError :=
  ⟨by rfl, by rfl, by rfl⟩

theorem getD_set_self {α : Type} (l : List α) (i : Nat) (a d : α)
    (h : i < l.length) : (l.set i a).getD i d = a := by
  rw [List.getD_eq_getElem?_getD, List.getElem?_set_self (by simpa using h)]
  rfl

theorem boardShape_spec (b : List (List (Option Char)))
    (h : boardShape b = true) : b.length = 8 ∧ ∀ r ∈ b, r.length = 8 := by
  unfold boardShape at h
  simp only [Bool.and_eq_true, beq_iff_eq, List.all_eq_true] at h
  exact h

theorem boardShape_boardSet (b : List (List (Option Char))) (y x : Int)
    (v : Option Char) (h : boardShape b = true) :
    boardShape (boardSet b y x v) = true := by
  obtain ⟨hlen, hrows⟩ := boardShape_spec b h
  unfold boardSet
  split
  · by_cases hy : y.toNat < b.length
    · unfold boardShape
      simp only [List.length_set, Bool.and_eq_true, beq_iff_eq, List.all_eq_true]
      refine ⟨hlen, ?_⟩
      intro r hr
      rcases List.mem_or_eq_of_mem_set hr with hmem | heq
      · exact hrows r hmem
      · subst heq
        have hrl : (b.getD y.toNat []).length = 8 := by
          rw [List.getD_eq_getElem?_getD, List.getElem?_eq_getElem hy]
          exact hrows _ (List.getElem_mem hy)
        rw [List.length_set]
        exact hrl
    · rw [List.set_eq_of_length_le (by omega)]
      exact h
  · exact h

theorem boardGet_boardSet_self (b : List (List (Option Char))) (y x : Int)
    (v : Option Char) (h : boardShape b = true)
    (hx0 : 0 ≤ x) (hx8 : x < 8) (hy0 : 0 ≤ y) (hy8 : y < 8) :
    boardGet (boardSet b y x v) y x = v := by
  obtain ⟨hlen, hrows⟩ := boardShape_spec b h
  have hyn : y.toNat < b.length := by omega
  have hrow : (b.getD y.toNat []).length = 8 := by
    rw [List.getD_eq_getElem?_getD, List.getElem?_eq_getElem hyn]
    exact hrows _ (List.getElem_mem hyn)
  have hxn : x.toNat < (b.getD y.toNat []).length := by omega
  unfold boardGet boardSet
  rw [if_pos ⟨hy0, hx0⟩, if_pos ⟨hy0, hx0⟩]
  rw [getD_set_self _ _ _ _ hyn, getD_set_self _ _ _ _ hxn]

/-- Any `applyMove` with a promotion field attached writes the
promotion piece (in the mover's colour) to the destination square —
regardless of which piece moved. -/
theorem applyMove_places_promotion (s : St) (m : Move) (pr : Char)
    (hpr : m.promotion = some pr) (hs : boardShape s.board = true)
    (hx0 : 0 ≤ m.toSq.x) (hx8 : m.toSq.x < 8)
    (hy0 : 0 ≤ m.toSq.y) (hy8 : m.toSq.y < 8) :
    boardGet (applyMove s m).board m.toSq.y m.toSq.x =
      some (if s.activeColor = some wStr then pr else pr.toLower) := by
  unfold applyMove
  dsimp only
  rw [hpr]
  refine boardGet_boardSet_self _ _ _ _ ?_ hx0 hx8 hy0 hy8
  split_ifs <;>
    first
      | (apply boardShape_boardSet
         apply boardShape_boardSet
         apply boardShape_boardSet
         apply boardShape_boardSet
         exact hs)
      | (apply boardShape_boardSet
         apply boardShape_boardSet
         apply boardShape_boardSet
         exact hs)
      | (apply boardShape_boardSet
         apply boardShape_boardSet
         exact hs)
      | (apply boardShape_boardSet
         exact hs)

/-- C9.  A promotion suffix that survives resolution is attached and
applied unconditionally: `applyMove` puts the promotion piece on the
destination square whatever piece moved, so `e5=Q` (a non-promotion
pawn push) leaves a white queen on e5 and `Ke2=Q` (a king move!)
replaces the king with a queen on e2. -/
theorem promotion_suffix_applied_unconditionally :
    (∀ (s : St) (m : Move) (pr : Char), m.promotion = some pr →
      boardShape s.board = true →
      0 ≤ m.toSq.x → m.toSq.x < 8 → 0 ≤ m.toSq.y → m.toSq.y < 8 →
      boardGet (applyMove s m).board m.toSq.y m.toSq.x =
        some (if s.activeColor = some wStr then pr else pr.toLower)) ∧
    validateAndApplySanMove promoFen ("e5=Q".toList) =
      .ok (.success ("7k/8/8/4Q3/8/8/8/4K3 b - - 0 1".toList) true false false) ∧
    validateAndApplySanMove promoFen ("Ke2=Q".toList) =
      .ok (.success ("7k/8/8/8/4P3/8/4Q3/8 b - - 1 1".toList) false false false) :=
  ⟨fun s m pr hpr hs hx0 hx8 hy0 hy8 =>
      applyMove_places_promotion s m pr hpr hs hx0 hx8 hy0 hy8,
    by rfl, by rfl⟩

/-- Witness for C9: attaching `=Q` to the pawn push e2–e3 from the
start position puts a white queen on e3. -/
theorem promotion_suffix_applied_unconditionally_witness :
    Move.promotion
        { fromSq := { x := 4, y := 1 }, toSq := { x := 4, y := 2 },
          capture := false, enPassant := false, pawnDouble := false,
          castle := none, promotion := some 'Q' } = some 'Q' ∧
      boardGet
          (applyMove startSt
            { fromSq := { x := 4, y := 1 }, toSq := { x := 4, y := 2 },
              capture := false, enPassant := false, pawnDouble := false,
              castle := none, promotion := some 'Q' }).board 2 4 = some 'Q' :=
  ⟨rfl,
    promotion_suffix_applied_unconditionally.1 startSt
      { fromSq := { x := 4, y := 1 }, toSq := { x := 4, y := 2 },
        capture := false, enPassant := false, pawnDouble := false,
        castle := none, promotion := some 'Q' } 'Q' rfl (by rfl)
      (by decide) (by decide) (by decide) (by decide)⟩

/-- Counterexample for C5: at a position with two knights on
different files both able to reach f3 (knights g1 and e5), `Nf3` is
ambiguous as the claim says — but `Nbf3` does not resolve to exactly
one move: no knight can reach f3 from the b-file, so it yields zero
candidates and the `Illegal move` error. -/
theorem san_Nbf3_does_not_resolve :
    validateAndApplySanMove ambFen ("Nf3".toList) =
      .ok (.failure ("Ambiguous move".toList)) ∧
    validateAndApplySanMove ambFen ("Nbf3".toList) =
      .ok (.failure ("Illegal move".toList)) :=
  ⟨by rfl, by rfl⟩

/-- C5 (amended).  The resolver demands exactly one candidate after
filtering: zero candidates give the `Illegal move` error, two or more
give `Ambiguous move`, and only a singleton set is applied.  With
knights on g1 and e5 both able to reach f3, `Nf3` is ambiguous while
`Ngf3` and `Nef3` (disambiguating by the knights' actual files) each
resolve to exactly one move. -/
theorem san_resolver_requires_unique_candidate :
    (∀ (st : St) (san : JsStr) (parsed : SanParse),
        parseSan st san = some parsed →
        (sanCandidates st parsed = [] →
          vaasCore st san = .failure ("Illegal move".toList)) ∧
        (2 ≤ (sanCandidates st parsed).length →
          vaasCore st san = .failure ("Ambiguous move".toList)) ∧
        (∀ m, sanCandidates st parsed = [m] →
          vaasCore st san =
            .success (toFen (applyMove st m))
              (inCheck (applyMove st m) (applyMove st m).activeColor)
              (inCheck (applyMove st m) (applyMove st m).activeColor &&
                (allLegalMoves (applyMove st m)).isEmpty)
              (!inCheck (applyMove st m) (applyMove st m).activeColor &&
                (allLegalMoves (applyMove st m)).isEmpty))) ∧
    validateAndApplySanMove ambFen ("Nf3".toList) =
      .ok (.failure ("Ambiguous move".toList)) ∧
    validateAndApplySanMove ambFen ("Ngf3".toList) =
      .ok (.success ("7k/8/8/4N3/8/5N2/8/4K3 b - - 1 1".toList) false false false) ∧
    validateAndApplySanMove ambFen ("Nef3".toList) =
      .ok (.success ("7k/8/8/8/8/5N2/8/4K1N1 b - - 1 1".toList) false false false) := by
  refine ⟨?_, by rfl, by rfl, by rfl⟩
  intro st san parsed hp
  have hv : vaasCore st san = applyResolved st (sanCandidates st parsed) := by
    unfold vaasCore
    rw [hp]
  refine ⟨?_, ?_, ?_⟩
  · intro h0
    rw [hv, h0]
    rfl
  · intro h2
    rw [hv]
    rcases hc : sanCandidates st parsed with _ | ⟨m1, _ | ⟨m2, t⟩⟩
    · rw [hc] at h2
      simp at h2
    · rw [hc] at h2
      simp at h2
    · rfl
  · intro m hm
    rw [hv, hm]
    rfl

/-- Witness for C5: instantiating the resolver rule at the two-knight
position and the parsed `Nf3` token. -/
theorem san_resolver_requires_unique_candidate_witness :
    2 ≤ (sanCandidates
          { board :=
              [[none, none, none, none, some 'K', none, some 'N', none],
               [none, none, none, none, none, none, none, none],
               [none, none, none, none, none, none, none, none],
               [none, none, none, none, none, none, none, none],
               [none, none, none, none, some 'N', none, none, none],
               [none, none, none, none, none, none, none, none],
               [none, none, none, none, none, none, none, none],
               [none, none, none, none, none, none, none, some 'k']],
            activeColor := some wStr, castling := some [],
            enPassant := some ['-'], halfmove := some 0,
            fullmove := some 1 } nf3Parsed).length ∧
      vaasCore
          { board :=
              [[none, none, none, none, some 'K', none, some 'N', none],
               [none, none, none, none, none, none, none, none],
               [none, none, none, none, none, none, none, none],
               [none, none, none, none, none, none, none, none],
               [none, none, none, none, some 'N', none, none, none],
               [none, none, none, none, none, none, none, none],
               [none, none, none, none, none, none, none, none],
               [none, none, none, none, none, none, none, some 'k']],
            activeColor := some wStr, castling := some [],
            enPassant := some ['-'], halfmove := some 0,
            fullmove := some 1 } ("Nf3".toList) =
        .failure ("Ambiguous move".toList) :=
  ⟨by decide,
    ((san_resolver_requires_unique_candidate.1
          { board :=
              [[none, none, none, none, some 'K', none, some 'N', none],
               [none, none, none, none, none, none, none, none],
               [none, none, none, none, none, none, none, none],
               [none, none, none, none, none, none, none, none],
               [none, none, none, none, some 'N', none, none, none],
               [none, none, none, none, none, none, none, none],
               [none, none, none, none, none, none, none, none],
               [none, none, none, none, none, none, none, some 'k']],
            activeColor := some wStr, castling := some [],
            enPassant := some ['-'], halfmove := some 0,
            fullmove := some 1 } ("Nf3".toList) nf3Parsed (by rfl)).2.1
      (by decide))⟩

/-- Round-half-up is antisymmetric at every point whose shifted value
is not an integer. -/
theorem floor_half_antisymm (x : ℝ) (hx : ∀ z : ℤ, x + 1 / 2 ≠ (z : ℝ)) :
    ⌊x + 1 / 2⌋ = -⌊-x + 1 / 2⌋ := by
  have hne : ((⌊x + 1 / 2⌋ : ℤ) : ℝ) ≠ x + 1 / 2 := fun hh => hx ⌊x + 1 / 2⌋ hh.symm
  have hlt : ((⌊x + 1 / 2⌋ : ℤ) : ℝ) < x + 1 / 2 := lt_of_le_of_ne (Int.floor_le _) hne
  have hceil : ⌈x + 1 / 2⌉ = ⌊x + 1 / 2⌋ + 1 := by
    have h1 : ⌊x + 1 / 2⌋ < ⌈x + 1 / 2⌉ := Int.lt_ceil.mpr hlt
    have h2 : ⌈x + 1 / 2⌉ ≤ ⌊x + 1 / 2⌋ + 1 := by
      apply Int.ceil_le.mpr
      push_cast
      linarith [Int.lt_floor_add_one (x + 1 / 2)]
    omega
  have hrw : -x + 1 / 2 = -(x + 1 / 2) + ((1 : ℤ) : ℝ) := by push_cast; ring
  rw [hrw, Int.floor_add_int, Int.floor_neg, hceil]
  omega

/-- The quantity `32·t/(1+t) + 1/2` with `t = 10^(n/400)` is never an
integer: otherwise `t` would equal an odd-over-odd rational whose
400th power is a power of ten, which parity forbids. -/
theorem elo_expected_half_never_integer (n : ℤ) (z : ℤ) :
    32 * (10 : ℝ) ^ ((n : ℝ) / 400) / (1 + (10 : ℝ) ^ ((n : ℝ) / 400)) +
        1 / 2 ≠ (z : ℝ) := by
  intro h
  set T := (10 : ℝ) ^ ((n : ℝ) / 400) with hTdef
  have hT : 0 < T := Real.rpow_pos_of_pos (by norm_num) _
  have hT1 : (0 : ℝ) < 1 + T := by linarith
  have h1 : 32 * T / (1 + T) = (z : ℝ) - 1 / 2 := by linarith
  have h2 : 32 * T = ((z : ℝ) - 1 / 2) * (1 + T) := by
    rw [div_eq_iff (ne_of_gt hT1)] at h1
    exact h1
  have key : T * (64 - (2 * (z : ℝ) - 1)) = 2 * (z : ℝ) - 1 := by
    linear_combination 2 * h2
  have hc64 : (2 * z - 1 : ℤ) ≠ 64 := by omega
  have hne : (64 : ℝ) - (2 * (z : ℝ) - 1) ≠ 0 := by
    intro h0
    apply hc64
    have h64 : (2 * (z : ℝ) - 1) = 64 := by linarith
    exact_mod_cast h64
  have hTeq : T = (2 * (z : ℝ) - 1) / (64 - (2 * (z : ℝ) - 1)) := by
    rw [eq_div_iff hne]
    linarith [key]
  have hpow : T ^ (400 : ℕ) = (10 : ℝ) ^ n := by
    rw [hTdef, ← Real.rpow_natCast ((10 : ℝ) ^ ((n : ℝ) / 400)) 400,
      ← Real.rpow_mul (by norm_num : (0 : ℝ) ≤ 10),
      show (n : ℝ) / 400 * ((400 : ℕ) : ℝ) = (n : ℝ) from by push_cast; ring,
      Real.rpow_intCast]
  rw [hTeq, div_pow] at hpow
  have hne400 : ((64 : ℝ) - (2 * (z : ℝ) - 1)) ^ (400 : ℕ) ≠ 0 := pow_ne_zero _ hne
  rw [div_eq_iff hne400] at hpow
  rcases n with m | m
  · rcases Nat.eq_zero_or_pos m with hm0 | hmpos
    · subst hm0
      rw [show ((Int.ofNat 0 : ℤ)) = ((0 : ℕ) : ℤ) from rfl, zpow_natCast,
        pow_zero, one_mul] at hpow
      have habs : |2 * (z : ℝ) - 1| = |64 - (2 * (z : ℝ) - 1)| := by
        apply (pow_left_inj₀ (abs_nonneg _) (abs_nonneg _)
          (by norm_num : (400 : ℕ) ≠ 0)).mp
        rw [← abs_pow, ← abs_pow, hpow]
      have habsZ : |2 * z - 1| = |64 - (2 * z - 1)| := by exact_mod_cast habs
      rcases abs_eq_abs.mp habsZ with h' | h' <;> omega
    · have hZ : (2 * z - 1) ^ (400 : ℕ) = 10 ^ m * (64 - (2 * z - 1)) ^ (400 : ℕ) := by
        rw [show ((Int.ofNat m : ℤ)) = ((m : ℕ) : ℤ) from rfl, zpow_natCast] at hpow
        exact_mod_cast hpow
      have hoddBase : Odd (2 * z - 1) := ⟨z - 1, by ring⟩
      have hodd : Odd ((2 * z - 1) ^ (400 : ℕ)) := hoddBase.pow
      have heven : Even ((10 : ℤ) ^ m * (64 - (2 * z - 1)) ^ (400 : ℕ)) :=
        (even_iff_two_dvd.mpr (dvd_pow (by norm_num) (by omega))).mul_right _
      rw [hZ] at hodd
      exact Int.not_odd_iff_even.mpr heven hodd
  · rw [zpow_negSucc] at hpow
    have h10 : ((10 : ℝ) ^ (m + 1)) ≠ 0 := by positivity
    rw [inv_mul_eq_div, eq_div_iff h10] at hpow
    have hZ : (2 * z - 1) ^ (400 : ℕ) * 10 ^ (m + 1) =
        (64 - (2 * z - 1)) ^ (400 : ℕ) := by exact_mod_cast hpow
    have heven : Even ((2 * z - 1) ^ (400 : ℕ) * 10 ^ (m + 1) : ℤ) :=
      (even_iff_two_dvd.mpr (dvd_pow (by norm_num) (by omega))).mul_left _
    have hoddBase : Odd ((64 - (2 * z - 1) : ℤ)) := ⟨32 - z, by ring⟩
    have hodd : Odd ((64 - (2 * z - 1)) ^ (400 : ℕ) : ℤ) := hoddBase.pow
    rw [hZ] at heven
    exact Int.not_odd_iff_even.mpr heven hodd

/-- C7.  Elo symmetry with the fixed `k = 32`: for all integer ratings
the winner's delta computed from one side is the exact negation of the
loser's delta computed from the other side. -/
theorem elo_delta_antisymmetric (ra rb : ℤ) :
    computeEloDelta ra rb 1 = - computeEloDelta rb ra 0 := by
  unfold computeEloDelta
  have hcast : ((ra : ℝ) - (rb : ℝ)) / 400 = -(((rb : ℝ) - (ra : ℝ)) / 400) := by
    ring
  set d : ℝ := ((rb : ℝ) - (ra : ℝ)) / 400 with hd
  set T := (10 : ℝ) ^ d with hT
  have hTpos : 0 < T := Real.rpow_pos_of_pos (by norm_num) _
  have hT1 : (1 : ℝ) + T ≠ 0 := by positivity
  have hTne : T ≠ 0 := ne_of_gt hTpos
  have hinv : (10 : ℝ) ^ (((ra : ℝ) - (rb : ℝ)) / 400) = T⁻¹ := by
    rw [hcast, Real.rpow_neg (by norm_num), hT]
  rw [hinv]
  have e1 : 32 * ((1 : ℝ) - 1 / (1 + T)) = 32 * T / (1 + T) := by
    field_simp
  have e2 : 32 * ((0 : ℝ) - 1 / (1 + T⁻¹)) = -(32 * T / (1 + T)) := by
    rw [inv_eq_one_div]
    field_simp
    ring
  rw [e1, e2]
  apply floor_half_antisymm
  intro z
  have hmain := elo_expected_half_never_integer (rb - ra) z
  have hcast2 : (((rb - ra : ℤ)) : ℝ) = (rb : ℝ) - ra := by push_cast; ring
  rw [hcast2] at hmain
  exact hmain

/-! ### Round-trip machinery: splitting, joining, decimal digits -/

theorem splitOnChar_ne_nil (sep : Char) (l : List Char) :
    splitOnChar sep l ≠ [] := by
  cases l with
  | nil => simp [splitOnChar]
  | cons c rest =>
    rw [splitOnChar]
    split <;> simp

theorem splitOnChar_of_not_mem (sep : Char) (a : List Char) (h : sep ∉ a) :
    splitOnChar sep a = [a] := by
  induction a with
  | nil => rfl
  | cons c t ih =>
    have hct : sep ∉ t := fun hx => h (List.mem_cons_of_mem _ hx)
    have hc : ¬ c = sep := fun e => h (e ▸ List.mem_cons_self c t)
    rw [splitOnChar]
    rw [ih hct, if_neg hc]
    rfl

theorem splitOnChar_append (sep : Char) (a b : List Char) (h : sep ∉ a) :
    splitOnChar sep (a ++ sep :: b) = a :: splitOnChar sep b := by
  induction a with
  | nil =>
    show splitOnChar sep (sep :: b) = [] :: splitOnChar sep b
    rw [splitOnChar]
    rw [if_pos rfl]
  | cons c t ih =>
    have hct : sep ∉ t := fun hx => h (List.mem_cons_of_mem _ hx)
    have hc : ¬ c = sep := fun e => h (e ▸ List.mem_cons_self c t)
    show splitOnChar sep (c :: (t ++ sep :: b)) = (c :: t) :: splitOnChar sep b
    rw [splitOnChar]
    rw [ih hct, if_neg hc]
    rfl

theorem splitOnChar_joinWith (sep : Char) (rows : List (List Char))
    (hne : rows ≠ []) (h : ∀ r ∈ rows, sep ∉ r) :
    splitOnChar sep (joinWith sep rows) = rows := by
  induction rows with
  | nil => exact absurd rfl hne
  | cons r rest ih =>
    cases rest with
    | nil =>
      show splitOnChar sep r = [r]
      exact splitOnChar_of_not_mem sep r (h r (List.mem_cons_self r []))
    | cons r2 t =>
      show splitOnChar sep (r ++ sep :: joinWith sep (r2 :: t)) = r :: r2 :: t
      rw [splitOnChar_append sep r _ (h r (List.mem_cons_self _ _))]
      rw [ih (by simp) (fun x hx => h x (List.mem_cons_of_mem _ hx))]

theorem joinWith_chars (sep : Char) (rows : List (List Char)) (c : Char)
    (hc : c ∈ joinWith sep rows) : c = sep ∨ ∃ r ∈ rows, c ∈ r := by
  induction rows with
  | nil => simp [joinWith] at hc
  | cons r rest ih =>
    cases rest with
    | nil =>
      right
      exact ⟨r, List.mem_cons_self _ _, hc⟩
    | cons r2 t =>
      rw [show joinWith sep (r :: r2 :: t) = r ++ sep :: joinWith sep (r2 :: t)
          from rfl] at hc
      rcases List.mem_append.mp hc with hr | hrest
      · exact Or.inr ⟨r, List.mem_cons_self _ _, hr⟩
      · rcases List.mem_cons.mp hrest with he | hj
        · exact Or.inl he
        · rcases ih hj with he | ⟨r', hr', hcr'⟩
          · exact Or.inl he
          · exact Or.inr ⟨r', List.mem_cons_of_mem _ hr', hcr'⟩

theorem digitChar_isDigit (d : Nat) (hd : d < 10) :
    (Nat.digitChar d).isDigit = true := by
  interval_cases d <;> decide

theorem digitChar_val (d : Nat) (hd : d < 10) :
    (Nat.digitChar d).toNat - 48 = d := by
  interval_cases d <;> decide

theorem jsNatStrAux_digits (fuel : Nat) :
    ∀ (m : Nat) (c : Char), c ∈ jsNatStrAux fuel m → c.isDigit = true := by
  induction fuel with
  | zero => intro m c hc; simp [jsNatStrAux] at hc
  | succ fuel ih =>
    intro m c hc
    unfold jsNatStrAux at hc
    split at hc
    · simp at hc
    · rcases List.mem_append.mp hc with h1 | h2
      · exact ih _ _ h1
      · rw [List.mem_singleton.mp h2]
        exact digitChar_isDigit _ (Nat.mod_lt _ (by norm_num))

theorem jsNatStr_digits (n : Nat) (c : Char) (hc : c ∈ jsNatStr n) :
    c.isDigit = true := by
  unfold jsNatStr at hc
  split at hc
  · rw [List.mem_singleton.mp hc]; decide
  · exact jsNatStrAux_digits n n c hc

theorem jsNatStr_ne_nil (n : Nat) : jsNatStr n ≠ [] := by
  unfold jsNatStr
  split
  · simp
  · unfold jsNatStrAux
    cases n with
    | zero => simp_all
    | succ k =>
      split
      · simp_all
      · simp

theorem jsNatStrAux_foldl (fuel : Nat) :
    ∀ (m : Nat) (acc : Nat), m ≤ fuel →
      (jsNatStrAux fuel m).foldl (fun a c => a * 10 + (c.toNat - 48)) acc =
        acc * 10 ^ (jsNatStrAux fuel m).length + m := by
  induction fuel with
  | zero =>
    intro m acc hm
    have : m = 0 := by omega
    subst this
    simp [jsNatStrAux]
  | succ fuel ih =>
    intro m acc hm
    by_cases hm0 : m = 0
    · subst hm0
      simp [jsNatStrAux]
    · rw [jsNatStrAux, if_neg hm0]
      rw [List.foldl_append]
      have hdiv : m / 10 ≤ fuel := by omega
      rw [ih (m / 10) acc hdiv]
      simp only [List.foldl_cons, List.foldl_nil, List.length_append,
        List.length_singleton]
      rw [digitChar_val _ (Nat.mod_lt _ (by norm_num)), pow_succ]
      have hmod := Nat.div_add_mod m 10
      set A := acc * 10 ^ (jsNatStrAux fuel (m / 10)).length with hA
      rw [show acc * (10 ^ (jsNatStrAux fuel (m / 10)).length * 10) = A * 10 from by
        rw [hA]; ring]
      omega

theorem jsNatStr_foldl (n : Nat) :
    (jsNatStr n).foldl (fun a c => a * 10 + (c.toNat - 48)) 0 = n := by
  unfold jsNatStr
  split
  · simp_all
  · rw [jsNatStrAux_foldl n n 0 (le_refl n)]
    ring

theorem jsNumber_jsNumStr (i : Int) (hi : 0 ≤ i) :
    jsNumber (some (jsNumStr (some i))) = some i := by
  have hstr : jsNumStr (some i) = jsNatStr i.toNat := by
    show (if i < 0 then '-' :: jsNatStr (-i).toNat else jsNatStr i.toNat) =
      jsNatStr i.toNat
    rw [if_neg (by omega)]
  rw [hstr]
  have hne := jsNatStr_ne_nil i.toNat
  rcases hcs : jsNatStr i.toNat with _ | ⟨c, cs⟩
  · exact absurd hcs hne
  · show (if (c :: cs).all Char.isDigit = true then
        some ((((c :: cs).foldl (fun a c => a * 10 + (c.toNat - 48)) 0 : Nat)) : Int)
      else none) = some i
    rw [if_pos (by
      rw [List.all_eq_true]
      intro x hx
      exact jsNatStr_digits i.toNat x (hcs ▸ hx))]
    have := jsNatStr_foldl i.toNat
    rw [hcs] at this
    rw [show ((c :: cs).foldl (fun a c => a * 10 + (c.toNat - 48)) 0) = i.toNat
      from this]
    rw [Int.toNat_of_nonneg hi]

/-! ### Round-trip machinery: the row codec -/

theorem jsNatStr_small (e : Nat) (h1 : 1 ≤ e) (h2 : e ≤ 9) :
    jsNatStr e = [Nat.digitChar e] := by
  interval_cases e <;> rfl

theorem decode_digit_skip (st : List (Option Char)) (file e : Nat)
    (cs : List Char) (h1 : 1 ≤ e) (h2 : e ≤ 9) :
    decodeRowGo st file (jsNatStr e ++ cs) = decodeRowGo st (file + e) cs := by
  rw [jsNatStr_small e h1 h2]
  show decodeRowGo st file (Nat.digitChar e :: cs) = decodeRowGo st (file + e) cs
  rw [decodeRowGo, if_pos (digitChar_isDigit e (by omega)), digitChar_val e (by omega)]

theorem set_append_len {α : Type} (a : List α) (c : α) (d : List α) (v : α) :
    (a ++ c :: d).set a.length v = a ++ v :: d := by
  induction a with
  | nil => rfl
  | cons x t ih =>
    show x :: (t ++ c :: d).set t.length v = x :: (t ++ v :: d)
    rw [ih]

theorem encodeRowGo_chars (row : List (Option Char)) :
    ∀ (empty : Nat) (c : Char), c ∈ encodeRowGo row empty →
      c.isDigit = true ∨ some c ∈ row := by
  induction row with
  | nil =>
    intro empty c hc
    rw [encodeRowGo] at hc
    split at hc
    · exact Or.inl (jsNatStr_digits _ _ hc)
    · simp at hc
  | cons a rest ih =>
    intro empty c hc
    cases a with
    | none =>
      rw [show encodeRowGo (none :: rest) empty = encodeRowGo rest (empty + 1)
          from rfl] at hc
      rcases ih _ c hc with hd | hmem
      · exact Or.inl hd
      · exact Or.inr (List.mem_cons_of_mem _ hmem)
    | some p =>
      rw [show encodeRowGo (some p :: rest) empty =
          (if empty ≠ 0 then jsNatStr empty else []) ++ p :: encodeRowGo rest 0
          from rfl] at hc
      rcases List.mem_append.mp hc with h1 | h2
      · split at h1
        · exact Or.inl (jsNatStr_digits _ _ h1)
        · simp at h1
      · rcases List.mem_cons.mp h2 with he | hr
        · exact Or.inr (he ▸ List.mem_cons_self _ _)
        · rcases ih _ c hr with hd | hmem
          · exact Or.inl hd
          · exact Or.inr (List.mem_cons_of_mem _ hmem)

theorem decode_encode_go (row : List (Option Char)) :
    ∀ (empty : Nat) (done : List (Option Char)),
      done.length + empty + row.length = 8 →
      (∀ p, some p ∈ row → p.isDigit = false) →
      decodeRowGo (done ++ List.replicate (empty + row.length) none) done.length
          (encodeRowGo row empty) =
        done ++ List.replicate empty none ++ row := by
  induction row with
  | nil =>
    intro empty done hlen _
    by_cases he : empty = 0
    · subst he
      simp [encodeRowGo, decodeRowGo]
    · rw [show encodeRowGo [] empty = jsNatStr empty from by
        rw [encodeRowGo, if_pos he]]
      rw [show jsNatStr empty = jsNatStr empty ++ [] from (List.append_nil _).symm]
      rw [decode_digit_skip _ _ _ _ (by omega) (by omega)]
      simp [decodeRowGo]
  | cons a rest ih =>
    intro empty done hlen hnd
    cases a with
    | none =>
      rw [show encodeRowGo (none :: rest) empty = encodeRowGo rest (empty + 1)
          from rfl]
      have hcnt : empty + (none :: rest).length = (empty + 1) + rest.length := by
        simp only [List.length_cons]
        omega
      rw [hcnt]
      rw [ih (empty + 1) done
        (by simp only [List.length_cons] at hlen; omega)
        (fun p hp => hnd p (List.mem_cons_of_mem _ hp))]
      rw [List.replicate_succ' empty none]
      simp
    | some p =>
      have hpnd : p.isDigit = false := hnd p (List.mem_cons_self _ _)
      rw [show encodeRowGo (some p :: rest) empty =
          (if empty ≠ 0 then jsNatStr empty else []) ++ p :: encodeRowGo rest 0
          from rfl]
      have hstep :
          decodeRowGo (done ++ List.replicate (empty + (some p :: rest).length) none)
              done.length
              ((if empty ≠ 0 then jsNatStr empty else []) ++ p :: encodeRowGo rest 0) =
            decodeRowGo (done ++ List.replicate (empty + (some p :: rest).length) none)
              (done.length + empty) (p :: encodeRowGo rest 0) := by
        by_cases he : empty = 0
        · subst he
          rw [if_neg (by simp)]
          rfl
        · rw [if_pos he]
          exact decode_digit_skip _ _ _ _ (by omega)
            (by simp only [List.length_cons] at hlen; omega)
      rw [hstep]
      rw [show decodeRowGo (done ++ List.replicate (empty + (some p :: rest).length) none)
            (done.length + empty) (p :: encodeRowGo rest 0) =
          decodeRowGo
            ((done ++ List.replicate (empty + (some p :: rest).length) none).set
              (done.length + empty) (some p))
            (done.length + empty + 1) (encodeRowGo rest 0) from by
        rw [decodeRowGo, if_neg (by rw [hpnd]; simp)]]
      have e1 :
          done ++ List.replicate (empty + (some p :: rest).length) none =
            (done ++ List.replicate empty none) ++
              none :: List.replicate rest.length none := by
        rw [show empty + (some p :: rest).length = empty + (rest.length + 1) from by
          simp only [List.length_cons]]
        rw [List.replicate_add, List.append_assoc]
        rfl
      have e2 :
          ((done ++ List.replicate empty none) ++
              none :: List.replicate rest.length none).set
              (done.length + empty) (some p) =
            (done ++ List.replicate empty none) ++
              some p :: List.replicate rest.length none := by
        rw [show done.length + empty = (done ++ List.replicate empty none).length
          from by simp]
        exact set_append_len _ _ _ _
      have e3 := ih 0 ((done ++ List.replicate empty none) ++ [some p])
        (by
          simp only [List.length_cons, List.length_append, List.length_replicate,
            List.length_nil] at hlen ⊢
          omega)
        (fun q hq => hnd q (List.mem_cons_of_mem _ hq))
      have e4 :
          ((done ++ List.replicate empty none) ++ [some p]) ++
              List.replicate (0 + rest.length) none =
            (done ++ List.replicate empty none) ++
              some p :: List.replicate rest.length none := by
        simp
      have e5 :
          ((done ++ List.replicate empty none) ++ [some p]).length =
            done.length + empty + 1 := by
        simp only [List.length_append, List.length_replicate, List.length_cons,
          List.length_nil]
      have e6 :
          ((done ++ List.replicate empty none) ++ [some p]) ++
              List.replicate 0 none ++ rest =
            done ++ List.replicate empty none ++ some p :: rest := by
        simp
      rw [e1, e2, ← e4, ← e5]
      exact e3.trans e6

theorem decodeRow_encodeRow (row : List (Option Char)) (hl : row.length = 8)
    (hnd : ∀ p, some p ∈ row → p.isDigit = false) :
    decodeRow (encodeRow row) = row := by
  unfold decodeRow encodeRow
  have h := decode_encode_go row 0 [] (by simp [hl]) hnd
  simp only [List.nil_append, List.length_nil, Nat.zero_add, hl,
    List.replicate, List.append_nil] at h
  simpa using h

/-! ### Round-trip machinery: ranges and `getD` -/

theorem range_map_getD {α : Type} (l : List α) (d : α) :
    (List.range l.length).map (fun i => l.getD i d) = l := by
  induction l with
  | nil => rfl
  | cons a t ih =>
    rw [show (a :: t).length = t.length + 1 from rfl, List.range_succ_eq_map]
    rw [List.map_cons, List.map_map]
    rw [show ((fun i => (a :: t).getD i d) ∘ Nat.succ) =
        (fun i => t.getD i d) from rfl]
    rw [ih]
    rfl

theorem range_map_getD_at {α : Type} (n : Nat) (f : Nat → α) (k : Nat) (d : α)
    (hk : k < n) : ((List.range n).map f).getD k d = f k := by
  rw [List.getD_eq_getElem?_getD, List.getElem?_map, List.getElem?_range hk]
  rfl

/-! ### Round-trip machinery: unpacking the invariant -/

theorem getD_mem {α : Type} (l : List α) (i : Nat) (d : α) (hi : i < l.length) :
    l.getD i d ∈ l := by
  rw [List.getD_eq_getElem?_getD, List.getElem?_eq_getElem hi]
  exact List.getElem_mem hi

theorem wfSt_parts (s : St) (h : wfSt s = true) :
    wfBoard s.board = true ∧
    (s.activeColor = some wStr ∨ s.activeColor = some bStr) ∧
    wfCastling s.castling = true ∧ wfEpStr s.enPassant = true ∧
    wfNum s.halfmove = true ∧ wfNum s.fullmove = true := by
  unfold wfSt at h
  simp only [Bool.and_eq_true, Bool.or_eq_true, beq_iff_eq] at h
  tauto

theorem plainPiece_parts (p : Char) (h : plainPiece p = true) :
    p.isDigit = false ∧ p ≠ '/' ∧ p ≠ ' ' := by
  unfold plainPiece at h
  simp only [Bool.and_eq_true, Bool.not_eq_true', bne_iff_ne] at h
  tauto

theorem wfBoard_parts (b : List (List (Option Char))) (h : wfBoard b = true) :
    b.length = 8 ∧ ∀ row ∈ b, row.length = 8 ∧
      ∀ p, some p ∈ row → plainPiece p = true := by
  unfold wfBoard wfRow at h
  simp only [Bool.and_eq_true, beq_iff_eq, List.all_eq_true] at h
  refine ⟨h.1, fun row hrow => ?_⟩
  have h2 := h.2 row hrow
  simp only [Bool.and_eq_true, beq_iff_eq, List.all_eq_true] at h2
  refine ⟨h2.1, fun p hp => ?_⟩
  simpa using h2.2 (some p) hp

theorem wfCastling_parts (v : Option JsStr) (h : wfCastling v = true) :
    ∃ cs, v = some cs ∧ '-' ∉ cs ∧ ' ' ∉ cs := by
  cases v with
  | none => simp [wfCastling] at h
  | some cs =>
    refine ⟨cs, rfl, ?_⟩
    have h2 : (!cs.contains '-' && !cs.contains ' ') = true := h
    simp at h2
    exact h2

theorem wfEpStr_parts (v : Option JsStr) (h : wfEpStr v = true) :
    ∃ e, v = some e ∧ e ≠ [] ∧ ' ' ∉ e := by
  cases v with
  | none => simp [wfEpStr] at h
  | some e =>
    refine ⟨e, rfl, ?_⟩
    have h2 : (!e.isEmpty && !e.contains ' ') = true := h
    simp at h2
    exact ⟨by
      intro hm
      rw [hm] at h2
      simp at h2, h2.2⟩

theorem wfNum_parts (v : Option Int) (h : wfNum v = true) :
    ∃ n, v = some n ∧ 0 ≤ n := by
  cases v with
  | none => simp [wfNum] at h
  | some n =>
    refine ⟨n, rfl, ?_⟩
    have h2 : decide (0 ≤ n) = true := h
    exact of_decide_eq_true h2

/-- Any well-formed Position round-trips bit-exactly through
`toFen`/`parseFen`. -/
theorem parseFen_toFen_of_wf (s : St) (h : wfSt s = true) :
    parseFen (toFen s) = .ok s := by
  obtain ⟨hbd, hac, hcsW, hepW, hhmW, hfmW⟩ := wfSt_parts s h
  obtain ⟨hblen, hrows⟩ := wfBoard_parts s.board hbd
  obtain ⟨cs, hcs, hcsDash, hcsSp⟩ := wfCastling_parts _ hcsW
  obtain ⟨e, hep, hene, hesp⟩ := wfEpStr_parts _ hepW
  obtain ⟨hm, hhm, hhm0⟩ := wfNum_parts _ hhmW
  obtain ⟨fm, hfm, hfm0⟩ := wfNum_parts _ hfmW
  set rowsE := (List.range 8).map (fun k => encodeRow (s.board.getD (7 - k) []))
    with hrowsE
  set J := joinWith '/' rowsE with hJ
  set A := jsStrInterp s.activeColor with hA
  set C := jsStrOr s.castling ['-'] with hC
  set E := jsStrOr s.enPassant ['-'] with hE
  set H := jsNumStr s.halfmove with hH
  set F := jsNumStr s.fullmove with hF
  have hrowChars : ∀ r ∈ rowsE, ∀ c ∈ r, c ≠ '/' ∧ c ≠ ' ' := by
    intro r hr c hc
    rw [hrowsE] at hr
    rcases List.mem_map.mp hr with ⟨k, hk, hkr⟩
    rw [List.mem_range] at hk
    rw [← hkr] at hc
    rcases encodeRowGo_chars _ _ _ hc with hd | hmem
    · constructor <;> (intro hce; rw [hce] at hd; exact absurd hd (by decide))
    · have hrmem : s.board.getD (7 - k) [] ∈ s.board :=
        getD_mem _ _ _ (by omega)
      have hpp := plainPiece_parts c ((hrows _ hrmem).2 c hmem)
      exact ⟨hpp.2.1, hpp.2.2⟩
  have hJ_nospace : ' ' ∉ J := by
    intro hsp
    rw [hJ] at hsp
    rcases joinWith_chars '/' rowsE ' ' hsp with heq | ⟨r, hr, hcr⟩
    · exact absurd heq (by decide)
    · exact (hrowChars r hr ' ' hcr).2 rfl
  have hA_nospace : ' ' ∉ A := by
    rcases hac with h' | h' <;> rw [hA, h'] <;> decide
  have hC_val : C = if cs = [] then ['-'] else cs := by
    rw [hC, hcs]
    rfl
  have hC_nospace : ' ' ∉ C := by
    rw [hC_val]
    split
    · decide
    · exact hcsSp
  have hE_val : E = e := by
    rw [hE, hep]
    show (if e = [] then ['-'] else e) = e
    rw [if_neg hene]
  have hE_nospace : ' ' ∉ E := hE_val ▸ hesp
  have hH_val : H = jsNatStr hm.toNat := by
    rw [hH, hhm]
    show (if hm < 0 then '-' :: jsNatStr (-hm).toNat else jsNatStr hm.toNat) = _
    rw [if_neg (by omega)]
  have hH_nospace : ' ' ∉ H := by
    rw [hH_val]
    intro hsp
    exact absurd (jsNatStr_digits _ _ hsp) (by decide)
  have hF_val : F = jsNatStr fm.toNat := by
    rw [hF, hfm]
    show (if fm < 0 then '-' :: jsNatStr (-fm).toNat else jsNatStr fm.toNat) = _
    rw [if_neg (by omega)]
  have hF_nospace : ' ' ∉ F := by
    rw [hF_val]
    intro hsp
    exact absurd (jsNatStr_digits _ _ hsp) (by decide)
  have htf : toFen s =
      J ++ (' ' :: (A ++ (' ' :: (C ++ (' ' :: (E ++ (' ' :: (H ++ (' ' :: F))))))))) := by
    rw [hJ, hrowsE, hA, hC, hE, hH, hF]
    unfold toFen
    simp only [List.append_assoc, List.cons_append]
  have hsplit : splitOnChar ' ' (toFen s) = [J, A, C, E, H, F] := by
    rw [htf]
    rw [splitOnChar_append _ _ _ hJ_nospace,
      splitOnChar_append _ _ _ hA_nospace,
      splitOnChar_append _ _ _ hC_nospace,
      splitOnChar_append _ _ _ hE_nospace,
      splitOnChar_append _ _ _ hH_nospace,
      splitOnChar_of_not_mem _ _ hF_nospace]
  have hrowsE_len : rowsE.length = 8 := by
    rw [hrowsE]
    simp
  have hrowsE_ne : rowsE ≠ [] := by
    intro hnil
    rw [hnil] at hrowsE_len
    simp at hrowsE_len
  have hrowsnosl : ∀ r ∈ rowsE, '/' ∉ r :=
    fun r hr hc => (hrowChars r hr '/' hc).1 rfl
  have hsplitJ : splitOnChar '/' J = rowsE := by
    rw [hJ]
    exact splitOnChar_joinWith '/' rowsE hrowsE_ne hrowsnosl
  have hboard :
      (List.range 8).map (fun y => decodeRow (rowsE.getD (7 - y) [])) = s.board := by
    have hstep : ∀ y ∈ List.range 8,
        decodeRow (rowsE.getD (7 - y) []) = s.board.getD y [] := by
      intro y hy
      rw [List.mem_range] at hy
      rw [hrowsE, range_map_getD_at 8 _ (7 - y) [] (by omega)]
      rw [show 7 - (7 - y) = y from by omega]
      have hrmem : s.board.getD y [] ∈ s.board := getD_mem _ _ _ (by omega)
      obtain ⟨hrl, hrp⟩ := hrows _ hrmem
      exact decodeRow_encodeRow _ hrl
        (fun p hp => (plainPiece_parts p (hrp p hp)).1)
    rw [List.map_congr_left hstep]
    rw [show (8 : Nat) = s.board.length from hblen.symm]
    exact range_map_getD s.board []
  have hacv : some A = s.activeColor := by
    rcases hac with h' | h' <;> rw [hA, h'] <;> rfl
  have hcastv : (if some C = some ['-'] then some ([] : JsStr) else some C) =
      s.castling := by
    rw [hcs]
    by_cases hcs0 : cs = []
    · subst hcs0
      have hCd : C = ['-'] := by rw [hC_val, if_pos rfl]
      rw [hCd, if_pos rfl]
    · have hCc : C = cs := by rw [hC_val, if_neg hcs0]
      rw [hCc, if_neg (by
        intro hsome
        rw [Option.some.injEq] at hsome
        subst hsome
        exact hcsDash (List.mem_cons_self '-' []))]
  have hepv : some E = s.enPassant := by
    rw [hE_val, hep]
  have hhmv : jsNumber (some H) = s.halfmove := by
    rw [hH, hhm]
    exact jsNumber_jsNumStr hm hhm0
  have hfmv : jsNumber (some F) = s.fullmove := by
    rw [hF, hfm]
    exact jsNumber_jsNumStr fm hfm0
  unfold parseFen
  rw [hsplit]
  simp only [List.getD_cons_zero, List.get?]
  rw [hsplitJ, hrowsE_len]
  rw [if_neg (by omega)]
  rw [hboard, hacv, hcastv, hepv, hhmv, hfmv]

/-! ### Round-trip machinery: the invariant is preserved by play -/

theorem addMoveList_promotion (board : List (List (Option Char)))
    (color : Option JsStr) (fromP : Pt) (tx ty : Int) (fc : Option Bool)
    (fe fd : Bool) :
    ∀ mv ∈ addMoveList board color fromP tx ty fc fe fd, mv.promotion = none := by
  intro mv hmv
  unfold addMoveList at hmv
  split at hmv
  · simp at hmv
  · dsimp only at hmv
    split at hmv
    · simp at hmv
    · rw [List.mem_singleton] at hmv
      subst hmv
      rfl

theorem slideGo_promotion (board : List (List (Option Char)))
    (color : Option JsStr) (tc : JsStr) (fromP : Pt) (dx dy : Int) :
    ∀ (fuel : Nat) (x y : Int) (mv : Move),
      mv ∈ slideGo board color tc fromP dx dy x y fuel → mv.promotion = none := by
  intro fuel
  induction fuel with
  | zero =>
    intro x y mv hmv
    simp [slideGo] at hmv
  | succ n ih =>
    intro x y mv hmv
    rw [slideGo] at hmv
    split at hmv
    · split at hmv
      · rcases List.mem_append.mp hmv with h1 | h1
        · exact addMoveList_promotion _ _ _ _ _ _ _ _ _ h1
        · exact ih _ _ _ h1
      · split at hmv
        · exact addMoveList_promotion _ _ _ _ _ _ _ _ _ hmv
        · simp at hmv
    · simp at hmv

set_option maxHeartbeats 1600000 in
theorem generatePieceMoves_promotion (s : St) (fromP : Pt) :
    ∀ mv ∈ generatePieceMoves s fromP, mv.promotion = none := by
  intro mv hmv
  unfold generatePieceMoves at hmv
  dsimp only at hmv
  repeat'
    first
    | (exact absurd hmv (List.not_mem_nil _))
    | (exact addMoveList_promotion _ _ _ _ _ _ _ _ _ hmv)
    | (exact slideGo_promotion _ _ _ _ _ _ _ _ _ _ hmv)
    | (rw [List.mem_singleton] at hmv; subst hmv; rfl)
    | (rcases List.mem_append.mp hmv with hmv | hmv)
    | (rcases List.mem_flatMap.mp hmv with ⟨d0, hd0, hmv⟩)
    | (unfold slide at hmv)
    | (dsimp only at hmv)
    | (split at hmv)

theorem allLegalMoves_promotion (s : St) :
    ∀ mv ∈ allLegalMoves s, mv.promotion = none := by
  intro mv hmv
  unfold allLegalMoves at hmv
  rw [List.mem_filter] at hmv
  rcases List.mem_flatMap.mp hmv.1 with ⟨y, hy, hmv2⟩
  rcases List.mem_flatMap.mp hmv2 with ⟨x, hx, hmv3⟩
  split at hmv3
  · exact absurd hmv3 (List.not_mem_nil _)
  · split at hmv3
    · exact absurd hmv3 (List.not_mem_nil _)
    · exact generatePieceMoves_promotion _ _ _ hmv3

theorem wfRow_iff (row : List (Option Char)) :
    wfRow row = true ↔
      row.length = 8 ∧ ∀ p, some p ∈ row → plainPiece p = true := by
  unfold wfRow
  simp only [Bool.and_eq_true, beq_iff_eq, List.all_eq_true]
  constructor
  · refine fun h => ⟨h.1, fun p hp => ?_⟩
    simpa using h.2 (some p) hp
  · refine fun h => ⟨h.1, fun c hc => ?_⟩
    cases c with
    | none => rfl
    | some p => simpa using h.2 p hc

theorem wfBoard_iff (b : List (List (Option Char))) :
    wfBoard b = true ↔ b.length = 8 ∧ ∀ row ∈ b, wfRow row = true := by
  unfold wfBoard
  simp [List.all_eq_true]

theorem getD_mem_or_default {α : Type} (l : List α) (i : Nat) (d : α) :
    l.getD i d = d ∨ l.getD i d ∈ l := by
  by_cases hi : i < l.length
  · exact Or.inr (getD_mem l i d hi)
  · left
    rw [List.getD_eq_getElem?_getD, List.getElem?_eq_none (by omega)]
    rfl

theorem wfBoard_cell (b : List (List (Option Char))) (h : wfBoard b = true)
    (y x : Int) :
    boardGet b y x = none ∨
      ∃ p, boardGet b y x = some p ∧ plainPiece p = true := by
  obtain ⟨hlen, hrows⟩ := wfBoard_parts b h
  unfold boardGet
  split
  · rcases hcell : (b.getD y.toNat []).getD x.toNat none with _ | p
    · exact Or.inl rfl
    · right
      refine ⟨p, rfl, ?_⟩
      rcases getD_mem_or_default (b.getD y.toNat []) x.toNat none with hd | hmem
      · rw [hd] at hcell
        exact absurd hcell (by simp)
      · rw [hcell] at hmem
        rcases getD_mem_or_default b y.toNat [] with hrd | hrmem
        · rw [hrd] at hmem
          exact absurd hmem (List.not_mem_nil _)
        · exact (hrows _ hrmem).2 p hmem
  · exact Or.inl rfl

theorem wfRow_set (row : List (Option Char)) (i : Nat) (v : Option Char)
    (hr : wfRow row = true)
    (hv : v = none ∨ ∃ p, v = some p ∧ plainPiece p = true) :
    wfRow (row.set i v) = true := by
  obtain ⟨hl, hp⟩ := (wfRow_iff row).mp hr
  rw [wfRow_iff]
  refine ⟨by rw [List.length_set]; exact hl, fun p hp2 => ?_⟩
  rcases List.mem_or_eq_of_mem_set hp2 with hmem | heq
  · exact hp p hmem
  · rcases hv with hv0 | ⟨q, hq, hqp⟩
    · rw [hv0] at heq
      exact absurd heq (by simp)
    · rw [hq, Option.some.injEq] at heq
      rw [heq]
      exact hqp

theorem wfBoard_boardSet (b : List (List (Option Char))) (y x : Int)
    (v : Option Char) (h : wfBoard b = true)
    (hv : v = none ∨ ∃ p, v = some p ∧ plainPiece p = true) :
    wfBoard (boardSet b y x v) = true := by
  obtain ⟨hlen, hrows⟩ := (wfBoard_iff b).mp h
  unfold boardSet
  split
  · by_cases hyb : y.toNat < b.length
    · rw [wfBoard_iff]
      refine ⟨by rw [List.length_set]; exact hlen, fun row hrow => ?_⟩
      rcases List.mem_or_eq_of_mem_set hrow with hmem | heq
      · exact hrows row hmem
      · rw [heq]
        exact wfRow_set _ _ _ (hrows _ (getD_mem b y.toNat [] hyb)) hv
    · rw [List.set_eq_of_length_le (by omega)]
      exact h
  · exact h

theorem removeFirstChar_subset (ch : Char) (l : List Char) :
    ∀ c ∈ removeFirstChar ch l, c ∈ l := by
  induction l with
  | nil => intro c hc; simp [removeFirstChar] at hc
  | cons a t ih =>
    intro c hc
    rw [removeFirstChar] at hc
    split at hc
    · exact List.mem_cons_of_mem _ hc
    · rcases List.mem_cons.mp hc with he | ht
      · exact he ▸ List.mem_cons_self _ _
      · exact List.mem_cons_of_mem _ (ih c ht)

theorem wfCastling_subset (cs cs' : JsStr) (h : wfCastling (some cs) = true)
    (hsub : ∀ c ∈ cs', c ∈ cs) : wfCastling (some cs') = true := by
  have h2 : (!cs.contains '-' && !cs.contains ' ') = true := h
  simp at h2
  show (!cs'.contains '-' && !cs'.contains ' ') = true
  simp
  exact ⟨fun hm => h2.1 (hsub _ hm), fun hm => h2.2 (hsub _ hm)⟩

theorem wfCastling_replaceFirst (v : Option JsStr) (ch : Char)
    (h : wfCastling v = true) : wfCastling (jsReplaceFirst v ch) = true := by
  cases v with
  | none => simp [wfCastling] at h
  | some cs =>
    show wfCastling (some (removeFirstChar ch cs)) = true
    exact wfCastling_subset cs _ h (removeFirstChar_subset ch cs)

theorem wfCastling_filter (v : Option JsStr) (f : Char → Bool)
    (h : wfCastling v = true) :
    wfCastling (v.map (fun cs => cs.filter f)) = true := by
  cases v with
  | none => simp [wfCastling] at h
  | some cs =>
    show wfCastling (some (cs.filter f)) = true
    exact wfCastling_subset cs _ h (fun c hc => (List.mem_filter.mp hc).1)

theorem jsElemStr_ne_nil (l : List Char) (i : Int) : jsElemStr l i ≠ [] := by
  unfold jsElemStr
  split
  · split <;> simp
  · simp

theorem jsElemStr_chars (l : List Char) (i : Int) :
    ∀ c ∈ jsElemStr l i, c ∈ l ∨ c ∈ ("undefined".toList) := by
  intro c hc
  unfold jsElemStr at hc
  split at hc
  · split at hc
    · rename_i x hx
      rw [List.mem_singleton.mp hc]
      left
      exact List.get?_mem hx
    · exact Or.inr hc
  · exact Or.inr hc

theorem wfEpStr_iff (e : JsStr) :
    wfEpStr (some e) = true ↔ e ≠ [] ∧ ' ' ∉ e := by
  show (!e.isEmpty && !e.contains ' ') = true ↔ _
  cases e <;> simp

theorem wfEpStr_idxToSq (x y : Int) : wfEpStr (some (idxToSq x y)) = true := by
  rw [wfEpStr_iff]
  constructor
  · unfold idxToSq
    intro hnil
    rcases List.append_eq_nil.mp hnil with ⟨h1, _⟩
    exact jsElemStr_ne_nil _ _ h1
  · unfold idxToSq
    intro hsp
    rcases List.mem_append.mp hsp with hs | hs
    · rcases jsElemStr_chars _ _ _ hs with hf | hu
      · exact absurd hf (by decide)
      · exact absurd hu (by decide)
    · rcases jsElemStr_chars _ _ _ hs with hf | hu
      · exact absurd hf (by decide)
      · exact absurd hu (by decide)

theorem wfCastling_ite (c : Prop) [Decidable c] (a b : Option JsStr)
    (ha : wfCastling a = true) (hb : wfCastling b = true) :
    wfCastling (if c then a else b) = true := by
  split <;> assumption

theorem wfBoard_ite (c : Prop) [Decidable c] (a b : List (List (Option Char)))
    (ha : wfBoard a = true) (hb : wfBoard b = true) :
    wfBoard (if c then a else b) = true := by
  split <;> assumption

set_option maxHeartbeats 1600000 in
theorem wf_preserved (s : St) (m : Move) (h : wfSt s = true)
    (hm : m ∈ allLegalMoves s) : wfSt (applyMove s m) = true := by
  obtain ⟨hbd, hac, hcsW, hepW, hhmW, hfmW⟩ := wfSt_parts s h
  have hprom : m.promotion = none := allLegalMoves_promotion s m hm
  obtain ⟨hmv, hhmeq, hhm0⟩ := wfNum_parts _ hhmW
  obtain ⟨fmv, hfmeq, hfm0⟩ := wfNum_parts _ hfmW
  unfold applyMove
  dsimp only
  rw [hprom]
  unfold wfSt
  dsimp only
  simp only [Bool.and_eq_true, and_assoc]
  refine ⟨?_, ?_, ?_, ?_, ?_, ?_⟩
  · refine wfBoard_boardSet _ _ _ _ ?_ ?_
    · repeat'
        first
        | exact hbd
        | (exact Or.inl rfl)
        | (refine wfBoard_boardSet _ _ _ _ ?_ ?_)
        | (refine wfBoard_cell _ ?_ _ _)
        | (refine wfBoard_ite _ _ _ ?_ ?_)
    · exact wfBoard_cell s.board hbd _ _
  · split <;> rfl
  · repeat'
      first
      | exact hcsW
      | (apply wfCastling_replaceFirst)
      | (apply wfCastling_filter)
      | (refine wfCastling_ite _ _ _ ?_ ?_)
  · split
    · exact wfEpStr_idxToSq _ _
    · rfl
  · split
    · rfl
    · rw [hhmeq]
      exact decide_eq_true (show (0 : ℤ) ≤ hmv + 1 by omega)
  · split
    · rw [if_neg (by decide)]
      exact hfmW
    · rw [if_pos rfl, hfmeq]
      exact decide_eq_true (show (0 : ℤ) ≤ fmv + 1 by omega)

theorem wfSt_startSt : wfSt startSt = true := by rfl

theorem reachable_wf (s : St) (h : Reachable s) : wfSt s = true := by
  induction h with
  | start => exact wfSt_startSt
  | step hr hmem ih => exact wf_preserved _ _ ih hmem

/-- C2.  FEN round trip: for the canonical starting Position and every
Position reachable from it by legal play (`allLegalMoves` moves applied
with `applyMove`), re-parsing the serialization gives back the very
same Position, bit-exact in all six fields. -/
theorem fen_roundtrip_reachable (s : St) (h : Reachable s) :
    parseFen (toFen s) = .ok s :=
  parseFen_toFen_of_wf s (reachable_wf s h)

/-- Witness for C2: the starting Position round-trips. -/
theorem fen_roundtrip_reachable_witness :
    parseFen (toFen startSt) = .ok startSt :=
  fen_roundtrip_reachable startSt Reachable.start

end Chess
